import Mathlib

/-!
Shallow embedding of the analytics core of the Google Ads agent
(`ads_agent.py`): cell values, data tables, the currency normalizer,
the row flattener and table builder, and the four analyzers
(`analyze_hourly`, `analyze_search_terms`, `analyze_placements`,
`prepare_campaign_summary`), together with theorems settling the
specification claims about them.

Modelling conventions:
* a pandas cell is a `Val`: a rational number (finite float / int),
  the floating NaN, a string, or Python `None`;
* a DataFrame is a `Table`: a column list (first-appearance order)
  plus a list of records (association lists); a record missing a
  column that the table has reads as NaN, as in pandas;
* "not a number" results are `Option.none`; raised exceptions are
  `Except.error`; Python in-place mutation of the caller's frame is
  made explicit by returning the post-call table next to the result.
-/

namespace GoogleAds

/-- A cell value of a flattened record / DataFrame cell. -/
inductive Val where
  | num (q : ℚ)
  | nan
  | str (s : String)
  | null
deriving DecidableEq

/-- A flattened record: an association list from dotted column keys to values.
Models a Python dict, so key updates overwrite in place and new keys append. -/
abbrev Record := List (String × Val)

/-- First-match lookup in a record (Python dict access / `row.get`). -/
def lookupR : Record → String → Option Val
  | [], _ => Option.none
  | (k, v) :: rest, key => if k = key then some v else lookupR rest key

/-- Python dict write `d[k] = v`: overwrite the first matching key in place,
append when absent. -/
def setKey : Record → String → Val → Record
  | [], c, v => [(c, v)]
  | (k, w) :: rest, c, v => if k = c then (c, v) :: rest else (k, w) :: setKey rest c v

/-- Python `dict.update`: apply the writes of `u` to `d` left to right. -/
def dictUpdate (d : Record) : Record → Record
  | [] => d
  | (k, v) :: rest => dictUpdate (setKey d k v) rest

/-- A DataFrame: columns in first-appearance order plus the row records. -/
structure Table where
  cols : List String
  rows : List Record
deriving DecidableEq

/-- `df.empty`: a frame with no rows or no columns is empty. -/
def tableEmptyB (t : Table) : Bool := t.rows.isEmpty || t.cols.isEmpty

/-- Reading a cell of a row for a column the table has: a record missing the
key holds NaN, as pandas fills missing cells with NaN. -/
def cell (r : Record) (c : String) : Val := (lookupR r c).getD Val.nan

/-- `row.get(c)` on a row taken from table `t`: `None` when the table lacks the
column, otherwise the (possibly NaN-filled) cell. -/
def pyGet (t : Table) (r : Record) (c : String) : Val :=
  if c ∈ t.cols then cell r c else Val.null

/-- Column assignment `df[c] = f(row)`: rewrite every row, appending the column
when it is new. -/
def setCol (t : Table) (c : String) (f : Record → Val) : Table :=
  { cols := if c ∈ t.cols then t.cols else t.cols ++ [c]
    rows := t.rows.map fun r => setKey r c (f r) }

/-- Digits-to-number accumulator for the numeric-string parser. -/
def digitsVal (cs : List Char) : ℕ :=
  cs.foldl (fun a c => a * 10 + (c.toNat - 48)) 0

/-- Body of the numeric-string parser: optional sign, then digits with an
optional single decimal point (at least one digit overall). Models what
Python `float(...)` / `pd.to_numeric` accept on the strings that occur here. -/
def pyFloatChars (cs : List Char) : Option ℚ :=
  let signed : ℚ × List Char :=
    match cs with
    | '-' :: t => (-1, t)
    | '+' :: t => (1, t)
    | _ => (1, cs)
  let intPart := signed.2.takeWhile Char.isDigit
  let rest := signed.2.dropWhile Char.isDigit
  match rest with
  | [] => if intPart.isEmpty then Option.none else some (signed.1 * digitsVal intPart)
  | '.' :: fracRest =>
      let fracPart := fracRest.takeWhile Char.isDigit
      let rest2 := fracRest.dropWhile Char.isDigit
      if rest2.isEmpty && !(intPart.isEmpty && fracPart.isEmpty) then
        some (signed.1 * ((digitsVal intPart : ℚ) + digitsVal fracPart / 10 ^ fracPart.length))
      else Option.none
  | _ => Option.none

/-- Whitespace test for the stripping that Python `float` performs. -/
def isSpaceC (c : Char) : Bool := c = ' ' || c = '\t' || c = '\n' || c = '\r'

/-- Strip leading and trailing whitespace from a character list. -/
def trimChars (cs : List Char) : List Char :=
  ((cs.dropWhile isSpaceC).reverse.dropWhile isSpaceC).reverse

/-- Parse a string as a number the way Python `float` does (whitespace
stripped); `Option.none` when it cannot be parsed. -/
def pyFloatOfString (s : String) : Option ℚ := pyFloatChars (trimChars s.data)

/-- `pd.to_numeric(value, errors="coerce")` on one cell: numbers pass through,
numeric strings parse, everything else (bad strings, `None`) becomes NaN. -/
def toNumericVal : Val → Val
  | Val.num q => Val.num q
  | Val.nan => Val.nan
  | Val.str s =>
      match pyFloatOfString s with
      | some q => Val.num q
      | Option.none => Val.nan
  | Val.null => Val.nan

/-- Coerce one column in place when present (`if col in df.columns`). -/
def coerceCol (t : Table) (c : String) : Table :=
  if c ∈ t.cols then setCol t c (fun r => toNumericVal (cell r c)) else t

/-- Coerce a list of columns in place, skipping absent ones. -/
def coerceCols (t : Table) (cs : List String) : Table := cs.foldl coerceCol t

/-- `micros_to_currency`: `float(value) / 1_000_000.0`, degrading to NaN
(`Option.none`) on `ValueError` / `TypeError` and on a NaN input; never
raises. -/
def micros_to_currency : Val → Option ℚ
  | Val.num q => some (q / 1000000)
  | Val.nan => Option.none
  | Val.str s => (pyFloatOfString s).map (fun q => q / 1000000)
  | Val.null => Option.none

/-- Store an optional number back into a cell (NaN for the missing case). -/
def valOfOpt : Option ℚ → Val
  | some q => Val.num q
  | Option.none => Val.nan

/-- The numeric content of a cell, if any. -/
def asNum : Val → Option ℚ
  | Val.num q => some q
  | _ => Option.none

/-- Python truthiness of a cell value: 0, the empty string and `None` are
falsy; NaN is truthy. -/
def truthy : Val → Bool
  | Val.num q => q != 0
  | Val.nan => true
  | Val.str s => s != ""
  | Val.null => false

/-- Pandas comparison `cell >= bound`: false when the cell is not numeric. -/
def geNum (v : Val) (bound : ℚ) : Bool :=
  match asNum v with
  | some x => bound ≤ x
  | Option.none => false

/-- Pandas comparison `cell == bound`: false when the cell is not numeric. -/
def eqNum (v : Val) (bound : ℚ) : Bool :=
  match asNum v with
  | some x => x = bound
  | Option.none => false

/-- Insert into a list sorted by the boolean relation `f`. -/
def insertS (f : α → α → Bool) (x : α) : List α → List α
  | [] => [x]
  | y :: ys => if f x y then x :: y :: ys else y :: insertS f x ys

/-- Insertion sort by the boolean relation `f`; models `sort_values`. -/
def sortS (f : α → α → Bool) : List α → List α
  | [] => []
  | x :: xs => insertS f x (sortS f xs)

/-- Descending order on optional sort keys with NaN (`Option.none`) last, the
pandas `sort_values(ascending=False)` key order. -/
def keyGe : Option ℚ → Option ℚ → Bool
  | _, Option.none => true
  | Option.none, some _ => false
  | some a, some b => b ≤ a

/-- The derived cost of a row, read back as a number with default 0
(`float(row.get("cost", 0.0))`). -/
def costD (r : Record) : ℚ := (asNum (cell r "cost")).getD 0

/-- Cost-descending comparison of rows, used by `sort_values("cost",
ascending=False)` in the analyzers. -/
def recGe (a b : Record) : Bool := keyGe (asNum (cell a "cost")) (asNum (cell b "cost"))

/-- `sort_values("cost", ascending=False)` over a row list. -/
def sortRecsByCostDesc (l : List Record) : List Record := sortS recGe l

/-- Pandas `Series.median` on a list of numbers: NaN (`Option.none`) on an
empty list, otherwise the middle of the sorted list (mean of the two middles
for even length). -/
def pyMedian (l : List ℚ) : Option ℚ :=
  if l.isEmpty then Option.none
  else
    let s := sortS (fun a b : ℚ => a ≤ b) l
    let n := l.length
    if n % 2 = 1 then some (s.getD (n / 2) 0)
    else some ((s.getD (n / 2 - 1) 0 + s.getD (n / 2) 0) / 2)

/-- Python `int(...)` on a float: truncation toward zero. -/
def pyTrunc (q : ℚ) : ℤ := if 0 ≤ q then Rat.floor q else -(Rat.floor (-q))

/-- Python `str(...)` of a scalar value (abstraction: the exact float
rendering is not modelled; no claim depends on it). -/
def pyStrVal : Val → String
  | Val.num q => if q.den = 1 then toString q.num else toString q
  | Val.nan => "nan"
  | Val.str s => s
  | Val.null => "None"

/-- Python format `f"\x7bq:.1f\x7d"`, abstracted: round to one decimal digit. -/
def fmt1 (q : ℚ) : String :=
  let n : ℤ := Rat.floor (q * 10 + 1 / 2)
  let a := n.natAbs
  (if n < 0 then "-" else "") ++ toString (a / 10) ++ "." ++ toString (a % 10)

/-! ## Hourly analyzer (`analyze_hourly`) -/

/-- The columns `analyze_hourly` coerces to numeric. -/
def hourlyNumericCols : List String :=
  ["metrics.clicks", "metrics.impressions", "metrics.conversions",
   "metrics.cost_micros", "segments.hour"]

/-- The hourly table after the in-place numeric coercion pass. -/
def hCoerced (t : Table) : Table := coerceCols t hourlyNumericCols

/-- One row of the per-hour aggregate `grouped`. -/
structure HourRow where
  hour : ℚ
  clicks : ℚ
  impressions : ℚ
  conversions : ℚ
  cost_micros : ℚ
  cost : Option ℚ
  ctr : Option ℚ
  cvr : Option ℚ
deriving DecidableEq

/-- The distinct numeric hour keys of a (coerced) table, ascending; rows whose
hour cell is not numeric (NaN) are dropped, as `groupby` drops NaN keys. -/
def hourKeys (t : Table) : List ℚ :=
  sortS (fun a b : ℚ => a ≤ b)
    ((t.rows.filterMap fun r => asNum (cell r "segments.hour")).dedup)

/-- Group sum of a coerced metric column over the rows with hour key `h`;
NaN cells are skipped (contribute 0), as pandas `sum` skips NaN. -/
def groupSum (t : Table) (h : ℚ) (c : String) : ℚ :=
  (((t.rows.filter fun r => asNum (cell r "segments.hour") = some h).map
    fun r => (asNum (cell r c)).getD 0).sum)

/-- Build one aggregate row: group sums plus derived cost, ctr and cvr
(a ratio is NaN when its denominator is zero, after the inf-to-NaN replace). -/
def mkHourRow (t : Table) (h : ℚ) : HourRow :=
  let cl := groupSum t h "metrics.clicks"
  let im := groupSum t h "metrics.impressions"
  let cv := groupSum t h "metrics.conversions"
  let cm := groupSum t h "metrics.cost_micros"
  { hour := h, clicks := cl, impressions := im, conversions := cv, cost_micros := cm
    cost := micros_to_currency (Val.num cm)
    ctr := if im = 0 then Option.none else some (cl / im)
    cvr := if cl = 0 then Option.none else some (cv / cl) }

/-- The `grouped` frame: one aggregate row per hour key, ascending by hour.
Takes the raw input table and works on its coerced form. -/
def hourGroupsOf (t : Table) : List HourRow :=
  (hourKeys (hCoerced t)).map (mkHourRow (hCoerced t))

/-- `int(active_hours.min())` with default 0: the first (smallest) hour whose
group has summed clicks > 0. `hourGroupsOf` is ascending, so the head of the
filtered list is the minimum. -/
def firstActiveOf (t : Table) : ℤ :=
  match (hourGroupsOf t).filter (fun g => decide (0 < g.clicks)) with
  | [] => 0
  | g :: _ => pyTrunc g.hour

/-- Summed clicks of the groups whose hour equals the first active hour
(`grouped.loc[grouped["segments.hour"] == first_active_hour, ...].sum()`). -/
def firstHourClicksF (t : Table) : ℚ :=
  (((hourGroupsOf t).filter fun g => g.hour = (firstActiveOf t : ℚ)).map HourRow.clicks).sum

/-- Summed clicks of every group other than the first active hour. -/
def restClicksOf (t : Table) : List ℚ :=
  ((hourGroupsOf t).filter fun g => ¬ g.hour = (firstActiveOf t : ℚ)).map HourRow.clicks

/-- `rest_clicks.median() if not rest_clicks.empty else np.nan`. -/
def restMedianOf (t : Table) : Option ℚ := pyMedian (restClicksOf t)

/-- `first_hour_clicks / rest_median if rest_median and rest_median > 0 else
nan`: NaN is truthy but compares false, 0.0 is falsy, so the ratio is computed
exactly when the median is a positive number. -/
def spikeOf (t : Table) : Option ℚ :=
  match restMedianOf t with
  | some m => if 0 < m then some (firstHourClicksF t / m) else Option.none
  | Option.none => Option.none

/-- The insight record of `analyze_hourly` (None encoded as `Option.none`). -/
structure Insight where
  first_active_hour : ℤ
  first_hour_clicks : ℤ
  rest_median_clicks : Option ℚ
  spike_ratio : Option ℚ
deriving DecidableEq

/-- The insight record assembled by `analyze_hourly`: NaN median or ratio is
rendered as null via the `x == x` self-comparison. -/
def insightOf (t : Table) : Insight :=
  { first_active_hour := firstActiveOf t
    first_hour_clicks := pyTrunc (firstHourClicksF t)
    rest_median_clicks := restMedianOf t
    spike_ratio := spikeOf t }

/-- The action-emission test `spike_ratio and spike_ratio >= threshold and
first_hour_clicks >= min_clicks`: a NaN ratio is truthy but the comparison
fails; a 0.0 ratio is falsy. -/
def spikeCondB (spike : Option ℚ) (thr : ℚ) (first : ℚ) (mc : ℤ) : Bool :=
  match spike with
  | some q => q != 0 && decide (thr ≤ q) && decide ((mc : ℚ) ≤ first)
  | Option.none => false

/-- The two recommendation strings emitted on a first-hour spike. -/
def hourlyActionStrings (fa : ℤ) (spike : ℚ) : List String :=
  ["Clicks at hour " ++ toString fa ++ ":00 are " ++ fmt1 spike ++
     "x the median of other hours — consider testing stricter start times, bid modifiers, or temporarily pausing that block.",
   "Enable/verify click-fraud protection and tighten geo targeting for the impacted campaigns."]

/-- The action list of `analyze_hourly`. -/
def hourlyActionsOf (t : Table) (mc : ℤ) (thr : ℚ) : List String :=
  if spikeCondB (spikeOf t) thr (firstHourClicksF t) mc then
    hourlyActionStrings (firstActiveOf t) ((spikeOf t).getD 0)
  else []

/-- Result of `analyze_hourly`: the `insight`-only no-data dict, or the full
`hourly_table` / `insight` / `actions` dict. -/
inductive HourlyResult where
  | noData (insight : String)
  | res (hourly_table : List HourRow) (insight : Insight) (actions : List String)
deriving DecidableEq

/-- `analyze_hourly(df_hour, min_clicks, spike_ratio_threshold)`. The second
component is the caller's frame after the call (the numeric coercion happens
in place on `df_hour`); a missing metric column makes the groupby aggregation
raise `KeyError`. -/
def analyze_hourly (t : Table) (mc : ℤ) (thr : ℚ) :
    Except String HourlyResult × Table :=
  if tableEmptyB t || "segments.hour" ∉ t.cols then
    (Except.ok (HourlyResult.noData "No hourly data returned."), t)
  else
    let t1 := hCoerced t
    if "metrics.clicks" ∈ t1.cols ∧ "metrics.impressions" ∈ t1.cols ∧
        "metrics.conversions" ∈ t1.cols ∧ "metrics.cost_micros" ∈ t1.cols then
      (Except.ok (HourlyResult.res (hourGroupsOf t) (insightOf t) (hourlyActionsOf t mc thr)), t1)
    else
      (Except.error "KeyError: missing metrics column in groupby aggregation", t1)

/-- Project the insight out of an `analyze_hourly` outcome. -/
def hInsight : Except String HourlyResult → Option Insight
  | Except.ok (HourlyResult.res _ ins _) => some ins
  | _ => Option.none

/-- Project the action list out of an `analyze_hourly` outcome. -/
def hActions : Except String HourlyResult → Option (List String)
  | Except.ok (HourlyResult.res _ _ acts) => some acts
  | _ => Option.none

/-! ## Search-term and placement analyzers -/

/-- The metric columns the search-term / placement analyzers coerce. -/
def stNumericCols : List String :=
  ["metrics.clicks", "metrics.impressions", "metrics.conversions", "metrics.cost_micros"]

/-- Input table after the in-place coercion pass of `analyze_search_terms` /
`analyze_placements`. -/
def stCoerced (t : Table) : Table := coerceCols t stNumericCols

/-- Input table after coercion and the in-place
`df["cost"] = df["metrics.cost_micros"].apply(micros_to_currency)` write. -/
def stWithCost (t : Table) : Table :=
  setCol (stCoerced t) "cost"
    (fun r => valOfOpt (micros_to_currency (cell r "metrics.cost_micros")))

/-- Search-term filter: clicks >= 20 and conversions == 0 and cost >= 10.0
(NaN cells fail every comparison). -/
def stPredB (r : Record) : Bool :=
  geNum (cell r "metrics.clicks") 20 && eqNum (cell r "metrics.conversions") 0 &&
    geNum (cell r "cost") 10

/-- The qualifying search-term rows (`losers` before sorting). -/
def stLosers (t : Table) : List Record := (stWithCost t).rows.filter stPredB

/-- `losers.sort_values("cost", ascending=False).head(25)` for search terms. -/
def stTop (t : Table) : List Record := (sortRecsByCostDesc (stLosers t)).take 25

/-- One negative-keyword recommendation. -/
structure STRec where
  search_term : Val
  campaign : Val
  reason : String
  est_cost : ℚ
deriving DecidableEq

/-- Build the recommendation for one qualifying search-term row. -/
def mkSTRec (t : Table) (r : Record) : STRec :=
  { search_term := pyGet t r "segments.search_term"
    campaign := pyGet t r "campaign.name"
    reason := "High spend/clicks with zero conversions — consider adding as a negative keyword."
    est_cost := costD r }

/-- Result of `analyze_search_terms`. -/
inductive STResult where
  | noData (insight : String)
  | negatives (recs : List STRec)
deriving DecidableEq

/-- `analyze_search_terms(df_st)`; second component is the caller's frame
after the call. A present `metrics.clicks` but absent `metrics.cost_micros`
raises `KeyError` on the cost assignment, after the coercions mutated the
frame; an absent `metrics.conversions` raises `KeyError` on the filter, after
the cost column was also written. -/
def analyze_search_terms (t : Table) : Except String STResult × Table :=
  if tableEmptyB t || "metrics.clicks" ∉ t.cols then
    (Except.ok (STResult.noData "No search term data returned."), t)
  else if "metrics.cost_micros" ∉ t.cols then
    (Except.error "KeyError: metrics.cost_micros", stCoerced t)
  else if "metrics.conversions" ∉ t.cols then
    (Except.error "KeyError: metrics.conversions", stWithCost t)
  else
    (Except.ok (STResult.negatives ((stTop t).map (mkSTRec (stWithCost t)))), stWithCost t)

/-- Project the recommendation list out of an `analyze_search_terms` outcome. -/
def stNegs : Except String STResult → Option (List STRec)
  | Except.ok (STResult.negatives recs) => some recs
  | _ => Option.none

/-- Placement filter: clicks >= 15 and conversions == 0 and cost >= 8.0. -/
def plPredB (r : Record) : Bool :=
  geNum (cell r "metrics.clicks") 15 && eqNum (cell r "metrics.conversions") 0 &&
    geNum (cell r "cost") 8

/-- The qualifying placement rows. -/
def plLosers (t : Table) : List Record := (stWithCost t).rows.filter plPredB

/-- `losers.sort_values("cost", ascending=False).head(25)` for placements. -/
def plTop (t : Table) : List Record := (sortRecsByCostDesc (plLosers t)).take 25

/-- One placement-exclusion recommendation. -/
structure PLRec where
  placement : Val
  campaign : Val
  reason : String
  est_cost : ℚ
deriving DecidableEq

/-- `row.get(target_url) or row.get(display_name)`: Python `or` takes the
first truthy operand; note a NaN cell is truthy. -/
def plIdent (t : Table) (r : Record) : Val :=
  let u := pyGet t r "detail_placement_view.group_placement_target_url"
  if truthy u then u else pyGet t r "detail_placement_view.display_name"

/-- Build the recommendation for one qualifying placement row. -/
def mkPLRec (t : Table) (r : Record) : PLRec :=
  { placement := plIdent t r
    campaign := pyGet t r "campaign.name"
    reason := "High spend/clicks with zero conversions — consider excluding this placement."
    est_cost := costD r }

/-- Result of `analyze_placements`. -/
inductive PLResult where
  | noData (insight : String)
  | exclusions (recs : List PLRec)
deriving DecidableEq

/-- `analyze_placements(df_pl)`; second component is the caller's frame after
the call. As for search terms, a missing `metrics.cost_micros` raises on the
cost assignment and a missing `metrics.conversions` raises on the filter. -/
def analyze_placements (t : Table) : Except String PLResult × Table :=
  if tableEmptyB t || "metrics.clicks" ∉ t.cols then
    (Except.ok (PLResult.noData "No placement data returned."), t)
  else if "metrics.cost_micros" ∉ t.cols then
    (Except.error "KeyError: metrics.cost_micros", stCoerced t)
  else if "metrics.conversions" ∉ t.cols then
    (Except.error "KeyError: metrics.conversions", stWithCost t)
  else
    (Except.ok (PLResult.exclusions ((plTop t).map (mkPLRec (stWithCost t)))), stWithCost t)

/-- Project the recommendation list out of an `analyze_placements` outcome. -/
def plExcl : Except String PLResult → Option (List PLRec)
  | Except.ok (PLResult.exclusions recs) => some recs
  | _ => Option.none

/-! ## Campaign summarizer -/

/-- The numeric columns of `prepare_campaign_summary`. -/
def campNumericCols : List String :=
  ["metrics.impressions", "metrics.clicks", "metrics.ctr", "metrics.conversions",
   "metrics.cost_micros", "metrics.conversions_value"]

/-- Campaign table after coercion and the in-place cost write. -/
def campWithCost (t : Table) : Table :=
  setCol (coerceCols t campNumericCols) "cost"
    (fun r => valOfOpt (micros_to_currency (cell r "metrics.cost_micros")))

/-- `prepare_campaign_summary(df_c)`: returns a new frame sorted by cost
descending; the coercions and the cost column land on the caller's frame
(second component). -/
def prepare_campaign_summary (t : Table) : Except String Table × Table :=
  if tableEmptyB t then (Except.ok t, t)
  else if "metrics.cost_micros" ∈ t.cols then
    (Except.ok { cols := (campWithCost t).cols
                 rows := sortRecsByCostDesc (campWithCost t).rows },
     campWithCost t)
  else
    (Except.error "KeyError: metrics.cost_micros", coerceCols t campNumericCols)

/-! ## Row flattener and table builder -/

/-- A nested message value as produced by `MessageToDict`: a scalar, a nested
mapping, or a sequence. -/
inductive Msg where
  | scalar (v : Val)
  | dict (fields : List (String × Msg))
  | arr (items : List Msg)

/-- Python `str(...)` of a message element inside a sequence; container
renderings are abstracted (no claim inspects them). -/
def pyStr : Msg → String
  | Msg.scalar v => pyStrVal v
  | Msg.dict _ => "\x7b...\x7d"
  | Msg.arr _ => "[...]"

/-- `f"\x7bparent_key\x7d.\x7bkey\x7d" if parent_key else key`. -/
def newKey (pk key : String) : String := if pk = "" then key else pk ++ "." ++ key

/-- `flatten_message(message, parent_key)` with the accumulating `flat` dict
made explicit: scalars are written under the dotted key, sequences as the
comma-join of their elements' text forms, nested dicts are flattened
recursively and merged with `flat.update`. -/
def flattenFields : List (String × Msg) → String → Record → Record
  | [], _, acc => acc
  | (key, Msg.scalar v) :: rest, pk, acc =>
      flattenFields rest pk (setKey acc (newKey pk key) v)
  | (key, Msg.arr items) :: rest, pk, acc =>
      flattenFields rest pk
        (setKey acc (newKey pk key) (Val.str (String.intercalate "," (items.map pyStr))))
  | (key, Msg.dict sub) :: rest, pk, acc =>
      flattenFields rest pk (dictUpdate acc (flattenFields sub (newKey pk key) []))
termination_by fields _ _ => sizeOf fields
decreasing_by all_goals (simp_wf; try omega)

/-- `flatten_message(row)` on one top-level message dict. -/
def flatten_message (fields : List (String × Msg)) : Record := flattenFields fields "" []

/-- First-appearance union of the column keys of a record list. -/
def colsUnion (ds : List Record) : List String :=
  ds.foldl (fun acc d => acc ++ ((d.map Prod.fst).filter fun k => k ∉ acc)) []

/-- `df_from_rows`: empty frame on no rows, otherwise flatten every row and
build the frame over the union of their keys. -/
def df_from_rows (msgs : List (List (String × Msg))) : Table :=
  match msgs with
  | [] => { cols := [], rows := [] }
  | _ =>
    let dicts := msgs.map flatten_message
    { cols := colsUnion dicts, rows := dicts }

/-- Read cell `(i, c)` of a table, `Option.none` when the row or column does
not exist. -/
def tableGet (t : Table) (i : ℕ) (c : String) : Option Val :=
  match t.rows.get? i with
  | some r => if c ∈ t.cols then some (cell r c) else Option.none
  | Option.none => Option.none

/-- The scalar leaves of a message dict, each with its dotted path: the pairs
the round-trip property promises to find again in the built table. Sequences
are rendered values, not scalar leaves. -/
def scalarLeaves : List (String × Msg) → String → List (String × Val)
  | [], _ => []
  | (key, Msg.scalar v) :: rest, pk => (newKey pk key, v) :: scalarLeaves rest pk
  | (_, Msg.arr _) :: rest, pk => scalarLeaves rest pk
  | (key, Msg.dict sub) :: rest, pk =>
      scalarLeaves sub (newKey pk key) ++ scalarLeaves rest pk
termination_by fields _ => sizeOf fields
decreasing_by all_goals (simp_wf; try omega)

/-- The key list of a record. -/
def keysR (d : Record) : List String := d.map Prod.fst

/-- The dotted keys that flattening a message dict writes: one per scalar or
sequence field, and recursively all keys of nested dicts. -/
def wKeys : List (String × Msg) → String → List String
  | [], _ => []
  | (k, Msg.dict sub) :: rest, pk => wKeys sub (newKey pk k) ++ wKeys rest pk
  | (k, _) :: rest, pk => newKey pk k :: wKeys rest pk
termination_by fields _ => sizeOf fields
decreasing_by all_goals (simp_wf; try omega)

/-- A key is dot-free when it does not contain the path separator. -/
def dotFreeB (s : String) : Bool := s.data.all fun c => c ≠ '.'

mutual

/-- Well-formed message value: its dict content, if any, is well formed. -/
def wfMsg : Msg → Bool
  | Msg.dict sub => wfFields sub
  | _ => true

/-- Well-formed message dict: at every nesting level the keys are distinct,
nonempty and dot-free (true of protobuf field names). -/
def wfFields : List (String × Msg) → Bool
  | [] => true
  | (k, m) :: rest =>
      (k != "") && dotFreeB k && decide (k ∉ rest.map Prod.fst) && wfMsg m && wfFields rest

end

/-! ## Concrete example inputs used by the claims -/

/-- One hourly row with the documented columns. -/
def exHourRow (h cl : ℚ) : Record :=
  [("segments.hour", Val.num h), ("metrics.clicks", Val.num cl),
   ("metrics.impressions", Val.num (cl * 10)), ("metrics.conversions", Val.num 1),
   ("metrics.cost_micros", Val.num (cl * 1000000))]

/-- The hourly column set. -/
def hourCols : List String :=
  ["segments.hour", "metrics.clicks", "metrics.impressions",
   "metrics.conversions", "metrics.cost_micros"]

/-- The spec example: hours 0,1,2,3 with clicks 100,10,8,12. -/
def exHours : Table :=
  { cols := hourCols, rows := [exHourRow 0 100, exHourRow 1 10, exHourRow 2 8, exHourRow 3 12] }

/-- Zero-traffic hourly table with hour groups 0 and 2. -/
def exZeroHours : Table :=
  { cols := hourCols, rows := [exHourRow 0 0, exHourRow 2 0] }

/-- An hourly table whose clicks arrive as a numeric string, so the in-place
numeric coercion changes the caller's frame. -/
def exHoursStr : Table :=
  { cols := hourCols,
    rows := [[("segments.hour", Val.num 0), ("metrics.clicks", Val.str "5"),
              ("metrics.impressions", Val.num 50), ("metrics.conversions", Val.num 1),
              ("metrics.cost_micros", Val.num 1000000)]] }

/-- One search-term row with the documented columns. -/
def exSTRow (cl cv cm : ℚ) (kw : String) : Record :=
  [("metrics.clicks", Val.num cl), ("metrics.conversions", Val.num cv),
   ("metrics.cost_micros", Val.num cm), ("segments.search_term", Val.str kw),
   ("campaign.name", Val.str "Camp")]

/-- The search-term column set. -/
def exSTCols : List String :=
  ["metrics.clicks", "metrics.conversions", "metrics.cost_micros",
   "segments.search_term", "campaign.name"]

/-- clicks=25, conversions=0, cost 12 dollars: qualifies. -/
def exIncluded : Table := { cols := exSTCols, rows := [exSTRow 25 0 12000000 "kw"] }

/-- clicks=25, conversions=1, cost 12 dollars: excluded. -/
def exConv : Table := { cols := exSTCols, rows := [exSTRow 25 1 12000000 "kw"] }

/-- clicks=25, conversions=0, cost 5 dollars: excluded. -/
def exCheap : Table := { cols := exSTCols, rows := [exSTRow 25 0 5000000 "kw"] }

/-- A search-term table with `metrics.clicks` but no `metrics.cost_micros`:
non-empty, structurally incomplete. -/
def exNoCostCol : Table :=
  { cols := ["metrics.clicks"], rows := [[("metrics.clicks", Val.num 25)]] }

/-- Thirty qualifying rows with costs 11..40 dollars. -/
def exThirty : Table :=
  { cols := exSTCols,
    rows := (List.range 30).map fun i => exSTRow 25 0 ((11 + i) * 1000000) "kw" }

/-- Rows carrying cost cells 50, 5 and 30 for the sort-order example. -/
def exSortRows : List Record :=
  [[("cost", Val.num 50)], [("cost", Val.num 5)], [("cost", Val.num 30)]]

/-- The placement column set. -/
def exPLCols : List String :=
  ["metrics.clicks", "metrics.conversions", "metrics.cost_micros",
   "detail_placement_view.display_name",
   "detail_placement_view.group_placement_target_url", "campaign.name"]

/-- A qualifying placement row that has a display name but no target-URL
field of its own. -/
def exPLQualRow : Record :=
  [("metrics.clicks", Val.num 20), ("metrics.conversions", Val.num 0),
   ("metrics.cost_micros", Val.num 9000000),
   ("detail_placement_view.display_name", Val.str "Example Site"),
   ("campaign.name", Val.str "Camp")]

/-- A non-qualifying placement row that does carry the target-URL field, so
the column exists in the table. -/
def exPLUrlRow : Record :=
  [("metrics.clicks", Val.num 0), ("metrics.conversions", Val.num 0),
   ("metrics.cost_micros", Val.num 0),
   ("detail_placement_view.display_name", Val.str "Other"),
   ("detail_placement_view.group_placement_target_url", Val.str "site.example")]

/-- The placements table exhibiting the NaN-filled URL cell. -/
def exPlacements : Table := { cols := exPLCols, rows := [exPLQualRow, exPLUrlRow] }

/-- A flattener input where the key "a.b" and the nested path a -> b collide
as dotted paths. -/
def exDotRow : List (String × Msg) :=
  [("a.b", Msg.scalar (Val.num 2)), ("a", Msg.dict [("b", Msg.scalar (Val.num 1))])]

/-- A well-formed nested row used to witness the round-trip property. -/
def exNestedRow : List (String × Msg) :=
  [("campaign", Msg.dict [("id", Msg.scalar (Val.str "7")), ("name", Msg.scalar (Val.str "C"))]),
   ("metrics", Msg.dict [("clicks", Msg.scalar (Val.num 3))]),
   ("tags", Msg.arr [Msg.scalar (Val.str "x"), Msg.scalar (Val.str "y")])]

/-! ## Basic lemmas -/

theorem insertS_perm (f : α → α → Bool) (x : α) (l : List α) :
    (insertS f x l).Perm (x :: l) := by
  induction l with
  | nil => exact List.Perm.refl _
  | cons y ys ih =>
      unfold insertS
      by_cases h : f x y
      · simp [h]
      · simp only [h, if_neg, Bool.false_eq_true, not_false_eq_true, if_false]
        exact (ih.cons y).trans (List.Perm.swap x y ys)

theorem sortS_perm (f : α → α → Bool) (l : List α) : (sortS f l).Perm l := by
  induction l with
  | nil => exact List.Perm.refl _
  | cons x xs ih => exact (insertS_perm f x (sortS f xs)).trans (ih.cons x)

theorem insertS_pairwise (f : α → α → Bool)
    (tot : ∀ a b, f a b = true ∨ f b a = true)
    (tr : ∀ a b c, f a b = true → f b c = true → f a c = true)
    (x : α) (l : List α) (hl : l.Pairwise fun a b => f a b = true) :
    (insertS f x l).Pairwise fun a b => f a b = true := by
  induction l with
  | nil => simp [insertS]
  | cons y ys ih =>
      rcases List.pairwise_cons.mp hl with ⟨hy, hys⟩
      unfold insertS
      by_cases h : f x y
      · simp only [h, if_true]
        refine List.pairwise_cons.mpr ⟨?_, hl⟩
        intro z hz
        rcases List.mem_cons.mp hz with rfl | hz
        · exact h
        · exact tr x y z h (hy z hz)
      · simp only [h, Bool.false_eq_true, if_false]
        refine List.pairwise_cons.mpr ⟨?_, ih hys⟩
        intro z hz
        have hz2 := (insertS_perm f x ys).mem_iff.mp hz
        rcases List.mem_cons.mp hz2 with rfl | hz3
        · rcases tot z y with hzy | hyz
          · exact absurd hzy h
          · exact hyz
        · exact hy z hz3

theorem sortS_pairwise (f : α → α → Bool)
    (tot : ∀ a b, f a b = true ∨ f b a = true)
    (tr : ∀ a b c, f a b = true → f b c = true → f a c = true)
    (l : List α) : (sortS f l).Pairwise fun a b => f a b = true := by
  induction l with
  | nil => simp [sortS]
  | cons x xs ih => exact insertS_pairwise f tot tr x (sortS f xs) ih

theorem keyGe_total (a b : Option ℚ) : keyGe a b = true ∨ keyGe b a = true := by
  cases a with
  | none => cases b with
    | none => simp [keyGe]
    | some q => simp [keyGe]
  | some p => cases b with
    | none => simp [keyGe]
    | some q =>
        simp only [keyGe, decide_eq_true_eq]
        exact (le_total q p).imp id id

theorem keyGe_trans (a b c : Option ℚ) (h1 : keyGe a b = true) (h2 : keyGe b c = true) :
    keyGe a c = true := by
  cases a with
  | none =>
      cases b with
      | none => cases c <;> simp [keyGe] at h2 ⊢
      | some q => cases c <;> simp_all [keyGe]
  | some p =>
      cases c with
      | none => simp [keyGe]
      | some r =>
          cases b with
          | none => simp [keyGe] at h2
          | some q =>
              simp only [keyGe, decide_eq_true_eq] at h1 h2 ⊢
              exact le_trans h2 h1

theorem recGe_total (a b : Record) : recGe a b = true ∨ recGe b a = true :=
  keyGe_total _ _

theorem recGe_trans (a b c : Record) (h1 : recGe a b = true) (h2 : recGe b c = true) :
    recGe a c = true :=
  keyGe_trans _ _ _ h1 h2

theorem cols_setCol_mem (t : Table) (c : String) (f : Record → Val) (h : c ∈ t.cols) :
    (setCol t c f).cols = t.cols := by
  simp [setCol, h]

theorem cols_coerceCol (t : Table) (c : String) : (coerceCol t c).cols = t.cols := by
  unfold coerceCol
  by_cases h : c ∈ t.cols
  · simp [h, cols_setCol_mem]
  · simp [h]

theorem cols_coerceCols (t : Table) (cs : List String) : (coerceCols t cs).cols = t.cols := by
  induction cs generalizing t with
  | nil => rfl
  | cons c cs ih =>
      show (coerceCols (coerceCol t c) cs).cols = t.cols
      rw [ih, cols_coerceCol]

theorem cols_stCoerced (t : Table) : (stCoerced t).cols = t.cols :=
  cols_coerceCols t stNumericCols

theorem cols_hCoerced (t : Table) : (hCoerced t).cols = t.cols :=
  cols_coerceCols t hourlyNumericCols

theorem cols_stWithCost (t : Table) :
    (stWithCost t).cols = if "cost" ∈ t.cols then t.cols else t.cols ++ ["cost"] := by
  unfold stWithCost setCol
  rw [cols_stCoerced]

theorem cols_campWithCost (t : Table) :
    (campWithCost t).cols = if "cost" ∈ t.cols then t.cols else t.cols ++ ["cost"] := by
  unfold campWithCost setCol
  rw [cols_coerceCols]

/-! ## Run lemmas: unfolding the analyzers under their guards -/

theorem analyze_hourly_noData (t : Table) (mc : ℤ) (thr : ℚ)
    (h : tableEmptyB t = true ∨ "segments.hour" ∉ t.cols) :
    analyze_hourly t mc thr = (Except.ok (HourlyResult.noData "No hourly data returned."), t) := by
  unfold analyze_hourly
  rcases h with h | h <;> simp [h]

theorem analyze_hourly_run (t : Table) (mc : ℤ) (thr : ℚ)
    (h1 : tableEmptyB t = false) (h2 : "segments.hour" ∈ t.cols)
    (h3 : "metrics.clicks" ∈ t.cols) (h4 : "metrics.impressions" ∈ t.cols)
    (h5 : "metrics.conversions" ∈ t.cols) (h6 : "metrics.cost_micros" ∈ t.cols) :
    analyze_hourly t mc thr =
      (Except.ok (HourlyResult.res (hourGroupsOf t) (insightOf t) (hourlyActionsOf t mc thr)),
       hCoerced t) := by
  unfold analyze_hourly
  simp [h1, h2, h3, h4, h5, h6, cols_hCoerced]

theorem analyze_search_terms_noData (t : Table)
    (h : tableEmptyB t = true ∨ "metrics.clicks" ∉ t.cols) :
    analyze_search_terms t =
      (Except.ok (STResult.noData "No search term data returned."), t) := by
  unfold analyze_search_terms
  rcases h with h | h <;> simp [h]

theorem analyze_search_terms_run (t : Table)
    (h1 : tableEmptyB t = false) (h2 : "metrics.clicks" ∈ t.cols)
    (h3 : "metrics.cost_micros" ∈ t.cols) (h4 : "metrics.conversions" ∈ t.cols) :
    analyze_search_terms t =
      (Except.ok (STResult.negatives ((stTop t).map (mkSTRec (stWithCost t)))), stWithCost t) := by
  unfold analyze_search_terms
  simp [h1, h2, h3, h4]

/-- Whatever the `metrics.conversions` column, a guard-passing call with a
cost-micros column leaves the caller's frame in the coerced-plus-cost state
(the cost write happens before the filter can raise). -/
theorem analyze_search_terms_snd (t : Table)
    (h1 : tableEmptyB t = false) (h2 : "metrics.clicks" ∈ t.cols)
    (h3 : "metrics.cost_micros" ∈ t.cols) :
    (analyze_search_terms t).2 = stWithCost t := by
  unfold analyze_search_terms
  by_cases h4 : "metrics.conversions" ∈ t.cols <;> simp [h1, h2, h3, h4]

theorem analyze_placements_noData (t : Table)
    (h : tableEmptyB t = true ∨ "metrics.clicks" ∉ t.cols) :
    analyze_placements t =
      (Except.ok (PLResult.noData "No placement data returned."), t) := by
  unfold analyze_placements
  rcases h with h | h <;> simp [h]

theorem analyze_placements_run (t : Table)
    (h1 : tableEmptyB t = false) (h2 : "metrics.clicks" ∈ t.cols)
    (h3 : "metrics.cost_micros" ∈ t.cols) (h4 : "metrics.conversions" ∈ t.cols) :
    analyze_placements t =
      (Except.ok (PLResult.exclusions ((plTop t).map (mkPLRec (stWithCost t)))), stWithCost t) := by
  unfold analyze_placements
  simp [h1, h2, h3, h4]

/-- Second-component analogue for placements: the frame state after a
guard-passing call with a cost-micros column does not depend on whether the
conversions column is there for the filter to raise on. -/
theorem analyze_placements_snd (t : Table)
    (h1 : tableEmptyB t = false) (h2 : "metrics.clicks" ∈ t.cols)
    (h3 : "metrics.cost_micros" ∈ t.cols) :
    (analyze_placements t).2 = stWithCost t := by
  unfold analyze_placements
  by_cases h4 : "metrics.conversions" ∈ t.cols <;> simp [h1, h2, h3, h4]

theorem prepare_campaign_summary_empty (t : Table) (h : tableEmptyB t = true) :
    prepare_campaign_summary t = (Except.ok t, t) := by
  unfold prepare_campaign_summary
  simp [h]

theorem prepare_campaign_summary_run (t : Table)
    (h1 : tableEmptyB t = false) (h2 : "metrics.cost_micros" ∈ t.cols) :
    prepare_campaign_summary t =
      (Except.ok { cols := (campWithCost t).cols
                   rows := sortRecsByCostDesc (campWithCost t).rows },
       campWithCost t) := by
  unfold prepare_campaign_summary
  simp [h1, h2]

/-! ## Claim C6: currency normalizer -/

/-- The total parse function underlying `float(value)`: the numeric content a
value can be read as, `Option.none` when there is none (bad string, `None`,
or the non-number NaN). -/
def pyParse : Val → Option ℚ
  | Val.num q => some q
  | Val.nan => Option.none
  | Val.str s => pyFloatOfString s
  | Val.null => Option.none

unseal Rat.add Rat.mul Rat.inv Rat.sub in
/-- C6: `micros_to_currency` divides every parseable input by 1,000,000 and
degrades to not-a-number otherwise, never raising (it is a total function);
in particular 6,000,000 maps to 6.0, and "bad" and `None` map to NaN. -/
theorem c6_currency_normalizer :
    micros_to_currency (Val.num 6000000) = some 6 ∧
    micros_to_currency (Val.str "bad") = Option.none ∧
    micros_to_currency Val.null = Option.none ∧
    ∀ v, micros_to_currency v = (pyParse v).map (fun q => q / 1000000) := by
  refine ⟨by decide, by decide, rfl, ?_⟩
  intro v
  cases v <;> rfl

/-! ## Claim C8: placement identifier and the NaN-filled URL cell -/

unseal Rat.add Rat.mul Rat.inv Rat.sub in
/-- C8 evaluation at the failing input: the qualifying row of `exPlacements`
has no `group_placement_target_url` field of its own while the column exists
in the table, so pandas fills the cell with NaN; NaN is truthy, so the
emitted placement identifier is the NaN cell, not the display name
"Example Site" the claim promises. -/
theorem c8_nan_url_cell :
    lookupR exPLQualRow "detail_placement_view.group_placement_target_url" = Option.none ∧
    cell exPLQualRow "detail_placement_view.display_name" = Val.str "Example Site" ∧
    (plExcl (analyze_placements exPlacements).1).map (List.map PLRec.placement) =
      some [Val.nan] ∧
    Val.nan ≠ Val.str "Example Site" := by
  refine ⟨by decide, by decide, by decide, by decide⟩

/-! ## Claim C9: the analyzers mutate the caller's table -/

unseal Rat.add Rat.mul Rat.inv Rat.sub in
/-- C9 counterexample: `analyze_search_terms` does not leave the caller's
table unchanged on this one-row table (it coerces columns and writes a cost
column in place). -/
theorem c9_counterexample : (analyze_search_terms exIncluded).2 ≠ exIncluded := by
  decide

unseal Rat.add Rat.mul Rat.inv Rat.sub in
/-- The numeric coercion rewrites a string click count in place, so the
caller's hourly frame changes. -/
theorem exHoursStr_mutates : (analyze_hourly exHoursStr 50 (5/2)).2 ≠ exHoursStr := by
  decide

/-- C9 amended: guard-failing calls return the caller's table untouched, but
every guard-passing call mutates it: the search-term, placement and campaign
analyzers write a derived cost column into the caller's table (so a
guard-passing table without a cost column always comes back changed), and
`analyze_hourly` coerces metric columns in place (shown on a table whose
clicks arrive as a numeric string). -/
theorem c9_amended :
    (∀ t, tableEmptyB t = true ∨ "metrics.clicks" ∉ t.cols →
      (analyze_search_terms t).2 = t) ∧
    (∀ t, tableEmptyB t = false → "metrics.clicks" ∈ t.cols →
      "metrics.cost_micros" ∈ t.cols → "cost" ∉ t.cols →
      "cost" ∈ ((analyze_search_terms t).2).cols ∧ (analyze_search_terms t).2 ≠ t) ∧
    (∀ t, tableEmptyB t = true ∨ "metrics.clicks" ∉ t.cols →
      (analyze_placements t).2 = t) ∧
    (∀ t, tableEmptyB t = false → "metrics.clicks" ∈ t.cols →
      "metrics.cost_micros" ∈ t.cols → "cost" ∉ t.cols →
      "cost" ∈ ((analyze_placements t).2).cols ∧ (analyze_placements t).2 ≠ t) ∧
    (∀ t, tableEmptyB t = true → (prepare_campaign_summary t).2 = t) ∧
    (∀ t, tableEmptyB t = false → "metrics.cost_micros" ∈ t.cols → "cost" ∉ t.cols →
      "cost" ∈ ((prepare_campaign_summary t).2).cols ∧ (prepare_campaign_summary t).2 ≠ t) ∧
    (∀ t mc thr, tableEmptyB t = true ∨ "segments.hour" ∉ t.cols →
      (analyze_hourly t mc thr).2 = t) ∧
    (analyze_hourly exHoursStr 50 (5/2)).2 ≠ exHoursStr := by
  have hcost : ∀ t : Table, "cost" ∉ t.cols →
      "cost" ∈ (stWithCost t).cols ∧ (stWithCost t).cols ≠ t.cols := by
    intro t h
    rw [cols_stWithCost]
    simp only [h, if_false]
    constructor
    · simp
    · intro heq
      have : (t.cols ++ ["cost"]).length = t.cols.length := by rw [heq]
      simp at this
  have hcostC : ∀ t : Table, "cost" ∉ t.cols →
      "cost" ∈ (campWithCost t).cols ∧ (campWithCost t).cols ≠ t.cols := by
    intro t h
    rw [cols_campWithCost]
    simp only [h, if_false]
    constructor
    · simp
    · intro heq
      have : (t.cols ++ ["cost"]).length = t.cols.length := by rw [heq]
      simp at this
  refine ⟨?_, ?_, ?_, ?_, ?_, ?_, ?_, exHoursStr_mutates⟩
  · intro t h; rw [analyze_search_terms_noData t h]
  · intro t h1 h2 h3 h4
    rw [analyze_search_terms_snd t h1 h2 h3]
    refine ⟨(hcost t h4).1, fun heq => (hcost t h4).2 ?_⟩
    exact congrArg Table.cols heq
  · intro t h; rw [analyze_placements_noData t h]
  · intro t h1 h2 h3 h4
    rw [analyze_placements_snd t h1 h2 h3]
    refine ⟨(hcost t h4).1, fun heq => (hcost t h4).2 ?_⟩
    exact congrArg Table.cols heq
  · intro t h; rw [prepare_campaign_summary_empty t h]
  · intro t h1 h2 h4
    rw [prepare_campaign_summary_run t h1 h2]
    refine ⟨(hcostC t h4).1, fun heq => (hcostC t h4).2 ?_⟩
    exact congrArg Table.cols heq
  · intro t mc thr h; rw [analyze_hourly_noData t mc thr h]

/-- C9 amended, witnessed at concrete inputs: the no-data path leaves the
table alone, and the mutating path changes it. -/
theorem c9_witness :
    tableEmptyB exIncluded = false ∧ "metrics.clicks" ∈ exIncluded.cols ∧
    "metrics.cost_micros" ∈ exIncluded.cols ∧ "cost" ∉ exIncluded.cols ∧
    "cost" ∈ ((analyze_search_terms exIncluded).2).cols ∧
    (analyze_search_terms exIncluded).2 ≠ exIncluded := by
  refine ⟨by decide, by decide, by decide, by decide, ?_, ?_⟩
  · exact ((c9_amended.2.1) exIncluded (by decide) (by decide) (by decide) (by decide)).1
  · exact ((c9_amended.2.1) exIncluded (by decide) (by decide) (by decide) (by decide)).2

/-! ## Claim C3: empty and incomplete inputs -/

/-- C3 counterexample: a non-empty search-term table that has the clicks
column but lacks `metrics.cost_micros` is structurally incomplete, yet
`analyze_search_terms` raises a KeyError on it instead of returning its
no-data result. -/
theorem c3_counterexample :
    (analyze_search_terms exNoCostCol).1 = Except.error "KeyError: metrics.cost_micros" ∧
    ∀ r, (analyze_search_terms exNoCostCol).1 ≠ Except.ok r := by
  refine ⟨rfl, ?_⟩
  intro r h
  rw [show (analyze_search_terms exNoCostCol).1 =
    Except.error "KeyError: metrics.cost_micros" from rfl] at h
  exact Except.noConfusion h

/-- C3 amended: every analyzer returns its explicit no-data marker, without
raising, on an empty table and on a table missing its guard column
(`segments.hour` for hourly, `metrics.clicks` for search terms and
placements; the campaign summarizer passes an empty table through); but a
non-empty table that passes the guard while missing another metric column
such as `metrics.cost_micros` makes the analyzer raise, so the analyzers are
not total over all structurally incomplete inputs. -/
theorem c3_amended :
    (∀ t mc thr, tableEmptyB t = true ∨ "segments.hour" ∉ t.cols →
      analyze_hourly t mc thr =
        (Except.ok (HourlyResult.noData "No hourly data returned."), t)) ∧
    (∀ t, tableEmptyB t = true ∨ "metrics.clicks" ∉ t.cols →
      analyze_search_terms t =
        (Except.ok (STResult.noData "No search term data returned."), t)) ∧
    (∀ t, tableEmptyB t = true ∨ "metrics.clicks" ∉ t.cols →
      analyze_placements t =
        (Except.ok (PLResult.noData "No placement data returned."), t)) ∧
    (∀ t, tableEmptyB t = true → prepare_campaign_summary t = (Except.ok t, t)) :=
  ⟨analyze_hourly_noData, analyze_search_terms_noData,
   analyze_placements_noData, prepare_campaign_summary_empty⟩

/-- C3 amended, witnessed on the empty table and on a table lacking the guard
column. -/
theorem c3_witness :
    analyze_hourly { cols := [], rows := [] } 50 (5/2) =
      (Except.ok (HourlyResult.noData "No hourly data returned."),
       { cols := [], rows := [] }) ∧
    analyze_search_terms { cols := ["campaign.name"], rows := [[("campaign.name", Val.str "C")]] } =
      (Except.ok (STResult.noData "No search term data returned."),
       { cols := ["campaign.name"], rows := [[("campaign.name", Val.str "C")]] }) ∧
    analyze_placements { cols := [], rows := [] } =
      (Except.ok (PLResult.noData "No placement data returned."), { cols := [], rows := [] }) ∧
    prepare_campaign_summary { cols := [], rows := [] } =
      (Except.ok { cols := [], rows := [] }, { cols := [], rows := [] }) :=
  ⟨c3_amended.1 _ 50 (5/2) (Or.inl (by decide)),
   c3_amended.2.1 _ (Or.inr (by decide)),
   c3_amended.2.2.1 _ (Or.inl (by decide)),
   c3_amended.2.2.2 _ (by decide)⟩

/-! ## Claim C4: the filter predicates -/

theorem geNum_iff (v : Val) (b : ℚ) : geNum v b = true ↔ ∃ x, asNum v = some x ∧ b ≤ x := by
  cases v <;> simp [geNum, asNum]

theorem eqNum_iff (v : Val) (b : ℚ) : eqNum v b = true ↔ asNum v = some b := by
  cases v <;> simp [eqNum, asNum]

theorem stPredB_iff (r : Record) :
    stPredB r = true ↔
      (∃ c, asNum (cell r "metrics.clicks") = some c ∧ 20 ≤ c) ∧
      asNum (cell r "metrics.conversions") = some 0 ∧
      (∃ k, asNum (cell r "cost") = some k ∧ 10 ≤ k) := by
  unfold stPredB
  simp only [Bool.and_eq_true, geNum_iff, eqNum_iff]
  tauto

theorem plPredB_iff (r : Record) :
    plPredB r = true ↔
      (∃ c, asNum (cell r "metrics.clicks") = some c ∧ 15 ≤ c) ∧
      asNum (cell r "metrics.conversions") = some 0 ∧
      (∃ k, asNum (cell r "cost") = some k ∧ 8 ≤ k) := by
  unfold plPredB
  simp only [Bool.and_eq_true, geNum_iff, eqNum_iff]
  tauto

unseal Rat.add Rat.mul Rat.inv Rat.sub in
/-- Concrete filter outcomes for the three one-row spec examples. -/
theorem c4_examples_eval :
    (stNegs (analyze_search_terms exIncluded).1).map (List.map STRec.est_cost) = some [12] ∧
    stNegs (analyze_search_terms exConv).1 = some [] ∧
    stNegs (analyze_search_terms exCheap).1 = some [] := by
  refine ⟨by decide, by decide, by decide⟩

/-- C4: a search-term row of the processed table is kept exactly when its
clicks are at least 20, its conversions are exactly 0 and its derived cost is
at least 10 dollars; a placement row exactly when clicks are at least 15,
conversions 0 and cost at least 8 dollars; concretely, the row with
clicks=25, conversions=0, cost 12 dollars is emitted (at cost 12) while the
rows with conversions=1 or cost 5 dollars are not. -/
theorem c4_filter_predicates :
    (∀ t r, r ∈ (stWithCost t).rows →
      (r ∈ stLosers t ↔
        (∃ c, asNum (cell r "metrics.clicks") = some c ∧ 20 ≤ c) ∧
        asNum (cell r "metrics.conversions") = some 0 ∧
        (∃ k, asNum (cell r "cost") = some k ∧ 10 ≤ k))) ∧
    (∀ t r, r ∈ (stWithCost t).rows →
      (r ∈ plLosers t ↔
        (∃ c, asNum (cell r "metrics.clicks") = some c ∧ 15 ≤ c) ∧
        asNum (cell r "metrics.conversions") = some 0 ∧
        (∃ k, asNum (cell r "cost") = some k ∧ 8 ≤ k))) ∧
    (stNegs (analyze_search_terms exIncluded).1).map (List.map STRec.est_cost) = some [12] ∧
    stNegs (analyze_search_terms exConv).1 = some [] ∧
    stNegs (analyze_search_terms exCheap).1 = some [] := by
  refine ⟨?_, ?_, c4_examples_eval.1, c4_examples_eval.2.1, c4_examples_eval.2.2⟩
  · intro t r hr
    rw [stLosers, List.mem_filter, stPredB_iff]
    tauto
  · intro t r hr
    rw [plLosers, List.mem_filter, plPredB_iff]
    tauto

unseal Rat.add Rat.mul Rat.inv Rat.sub in
/-- C4 witnessed at the processed qualifying row of the clicks=25,
conversions=0, cost-12 table. -/
theorem c4_witness :
    (exSTRow 25 0 12000000 "kw" ++ [("cost", Val.num 12)]) ∈ (stWithCost exIncluded).rows ∧
    ((exSTRow 25 0 12000000 "kw" ++ [("cost", Val.num 12)]) ∈ stLosers exIncluded ↔
      (∃ c, asNum (cell (exSTRow 25 0 12000000 "kw" ++ [("cost", Val.num 12)])
          "metrics.clicks") = some c ∧ 20 ≤ c) ∧
      asNum (cell (exSTRow 25 0 12000000 "kw" ++ [("cost", Val.num 12)])
          "metrics.conversions") = some 0 ∧
      (∃ k, asNum (cell (exSTRow 25 0 12000000 "kw" ++ [("cost", Val.num 12)])
          "cost") = some k ∧ 10 ≤ k)) :=
  ⟨by decide, c4_filter_predicates.1 exIncluded _ (by decide)⟩

/-! ## Claim C5: cost-descending order and the top-25 cap -/

theorem recGe_costD (a b : Record)
    (ha : ∃ k, asNum (cell a "cost") = some k)
    (hb : ∃ k, asNum (cell b "cost") = some k)
    (h : recGe a b = true) : costD b ≤ costD a := by
  obtain ⟨ka, hka⟩ := ha
  obtain ⟨kb, hkb⟩ := hb
  unfold recGe at h
  rw [hka, hkb] at h
  simp only [keyGe, decide_eq_true_eq] at h
  simp [costD, hka, hkb, h]

theorem mem_sorted_losers_cost {t : Table} {p : Record → Bool}
    (hp : ∀ r, p r = true → ∃ k, asNum (cell r "cost") = some k)
    {r : Record} (hr : r ∈ sortRecsByCostDesc ((stWithCost t).rows.filter p)) :
    ∃ k, asNum (cell r "cost") = some k := by
  have hmem := (sortS_perm recGe _).mem_iff.mp hr
  exact hp r (List.mem_filter.mp hmem).2

/-- The shared order/cap facts for one analyzer family: the emitted cost list
is the cost-descending sort of the qualifying rows truncated to 25, so it is
sorted, capped, and retains a maximal-cost subset. -/
theorem sorted_cap_facts (t : Table) (p : Record → Bool)
    (hp : ∀ r, p r = true → ∃ k, asNum (cell r "cost") = some k) :
    (((sortRecsByCostDesc ((stWithCost t).rows.filter p)).take 25).length ≤ 25) ∧
    List.Sorted (· ≥ ·)
      (((sortRecsByCostDesc ((stWithCost t).rows.filter p)).take 25).map costD) ∧
    (((stWithCost t).rows.filter p).map costD).Perm
      ((((sortRecsByCostDesc ((stWithCost t).rows.filter p)).take 25).map costD) ++
        (((sortRecsByCostDesc ((stWithCost t).rows.filter p)).drop 25).map costD)) ∧
    ∀ d ∈ ((sortRecsByCostDesc ((stWithCost t).rows.filter p)).drop 25).map costD,
      ∀ c ∈ ((sortRecsByCostDesc ((stWithCost t).rows.filter p)).take 25).map costD,
        d ≤ c := by
  set L := (stWithCost t).rows.filter p with hL
  set S := sortRecsByCostDesc L with hS
  have hperm : S.Perm L := sortS_perm recGe L
  have hpw : S.Pairwise fun a b => recGe a b = true :=
    sortS_pairwise recGe recGe_total recGe_trans L
  have hval : ∀ r ∈ S, ∃ k, asNum (cell r "cost") = some k := by
    intro r hr
    exact hp r (List.mem_filter.mp (hperm.mem_iff.mp hr)).2
  have hpwc : S.Pairwise fun a b => costD b ≤ costD a := by
    refine hpw.imp_of_mem ?_
    intro a b hma hmb hge
    exact recGe_costD a b (hval a hma) (hval b hmb) hge
  have hsplit : S.take 25 ++ S.drop 25 = S := List.take_append_drop 25 S
  have hpwsplit := hsplit ▸ hpwc
  rw [List.pairwise_append] at hpwsplit
  refine ⟨?_, ?_, ?_, ?_⟩
  · calc (S.take 25).length = min 25 S.length := List.length_take 25 S
      _ ≤ 25 := min_le_left _ _
  · rw [List.Sorted, List.pairwise_map]
    exact hpwsplit.1
  · have h1 : (L.map costD).Perm (S.map costD) := (hperm.map costD).symm
    have h2 : S.map costD = (S.take 25).map costD ++ (S.drop 25).map costD := by
      rw [← List.map_append, hsplit]
    rw [← h2]
    exact h1
  · intro d hd c hc
    obtain ⟨b, hb, rfl⟩ := List.mem_map.mp hd
    obtain ⟨a, ha, rfl⟩ := List.mem_map.mp hc
    exact hpwsplit.2.2 a ha b hb

theorem stPred_has_cost (r : Record) (h : stPredB r = true) :
    ∃ k, asNum (cell r "cost") = some k := by
  obtain ⟨-, -, k, hk, -⟩ := (stPredB_iff r).mp h
  exact ⟨k, hk⟩

theorem plPred_has_cost (r : Record) (h : plPredB r = true) :
    ∃ k, asNum (cell r "cost") = some k := by
  obtain ⟨-, -, k, hk, -⟩ := (plPredB_iff r).mp h
  exact ⟨k, hk⟩

unseal Rat.add Rat.mul Rat.inv Rat.sub in
/-- Concrete order and cap outcomes: cost cells 50, 5, 30 rank as
[50, 30, 5], and thirty qualifying rows produce exactly 25 entries. -/
theorem c5_examples_eval :
    (sortRecsByCostDesc exSortRows).map costD = [50, 30, 5] ∧
    (stNegs (analyze_search_terms exThirty).1).map List.length = some 25 := by
  refine ⟨by decide, by decide⟩

/-- C5: each recommendation list is the cost-descending ranking of the
qualifying rows capped at 25 entries: it has at most 25 entries, its costs
are sorted descending, and together with the dropped tail it is a
permutation of all qualifying costs where every dropped cost is bounded by
every emitted cost; concretely, qualifying cost cells 50, 5, 30 are ranked
[50, 30, 5] and 30 qualifying rows yield exactly 25 recommendations. -/
theorem c5_sort_and_cap :
    (∀ t, tableEmptyB t = false → "metrics.clicks" ∈ t.cols →
      "metrics.cost_micros" ∈ t.cols → "metrics.conversions" ∈ t.cols →
      ∃ recs, stNegs (analyze_search_terms t).1 = some recs ∧
        recs.length ≤ 25 ∧
        List.Sorted (· ≥ ·) (recs.map STRec.est_cost) ∧
        ∃ dropped, ((stLosers t).map costD).Perm ((recs.map STRec.est_cost) ++ dropped) ∧
          ∀ d ∈ dropped, ∀ c ∈ recs.map STRec.est_cost, d ≤ c) ∧
    (∀ t, tableEmptyB t = false → "metrics.clicks" ∈ t.cols →
      "metrics.cost_micros" ∈ t.cols → "metrics.conversions" ∈ t.cols →
      ∃ recs, plExcl (analyze_placements t).1 = some recs ∧
        recs.length ≤ 25 ∧
        List.Sorted (· ≥ ·) (recs.map PLRec.est_cost) ∧
        ∃ dropped, ((plLosers t).map costD).Perm ((recs.map PLRec.est_cost) ++ dropped) ∧
          ∀ d ∈ dropped, ∀ c ∈ recs.map PLRec.est_cost, d ≤ c) ∧
    (sortRecsByCostDesc exSortRows).map costD = [50, 30, 5] ∧
    (stNegs (analyze_search_terms exThirty).1).map List.length = some 25 := by
  refine ⟨?_, ?_, c5_examples_eval.1, c5_examples_eval.2⟩
  · intro t h1 h2 h3 h4
    rw [analyze_search_terms_run t h1 h2 h3 h4]
    refine ⟨(stTop t).map (mkSTRec (stWithCost t)), rfl, ?_⟩
    have hmapc : ((stTop t).map (mkSTRec (stWithCost t))).map STRec.est_cost =
        (stTop t).map costD := by
      rw [List.map_map]; rfl
    have hfacts := sorted_cap_facts t stPredB stPred_has_cost
    rw [hmapc]
    refine ⟨?_, hfacts.2.1, ?_⟩
    · rw [List.length_map]
      exact hfacts.1
    · exact ⟨_, hfacts.2.2.1, hfacts.2.2.2⟩
  · intro t h1 h2 h3 h4
    rw [analyze_placements_run t h1 h2 h3 h4]
    refine ⟨(plTop t).map (mkPLRec (stWithCost t)), rfl, ?_⟩
    have hmapc : ((plTop t).map (mkPLRec (stWithCost t))).map PLRec.est_cost =
        (plTop t).map costD := by
      rw [List.map_map]; rfl
    have hfacts := sorted_cap_facts t plPredB plPred_has_cost
    rw [hmapc]
    refine ⟨?_, hfacts.2.1, ?_⟩
    · rw [List.length_map]
      exact hfacts.1
    · exact ⟨_, hfacts.2.2.1, hfacts.2.2.2⟩

/-- C5 witnessed at the thirty-row qualifying table. -/
theorem c5_witness :
    tableEmptyB exThirty = false ∧ "metrics.clicks" ∈ exThirty.cols ∧
    "metrics.cost_micros" ∈ exThirty.cols ∧ "metrics.conversions" ∈ exThirty.cols ∧
    ∃ recs, stNegs (analyze_search_terms exThirty).1 = some recs ∧
      recs.length ≤ 25 ∧
      List.Sorted (· ≥ ·) (recs.map STRec.est_cost) ∧
      ∃ dropped, ((stLosers exThirty).map costD).Perm ((recs.map STRec.est_cost) ++ dropped) ∧
        ∀ d ∈ dropped, ∀ c ∈ recs.map STRec.est_cost, d ≤ c :=
  ⟨by decide, by decide, by decide, by decide,
   c5_sort_and_cap.1 exThirty (by decide) (by decide) (by decide) (by decide)⟩

/-! ## Claims C1, C2, C10: the hourly analyzer -/

theorem insightOf_first_active (t : Table) :
    (insightOf t).first_active_hour = firstActiveOf t := by
  simp only [insightOf]

theorem insightOf_first_clicks (t : Table) :
    (insightOf t).first_hour_clicks = pyTrunc (firstHourClicksF t) := by
  simp only [insightOf]

theorem insightOf_rest_median (t : Table) :
    (insightOf t).rest_median_clicks = restMedianOf t := by
  simp only [insightOf]

theorem insightOf_spike (t : Table) :
    (insightOf t).spike_ratio = spikeOf t := by
  simp only [insightOf]

theorem spikeCondB_iff (s : Option ℚ) (thr first : ℚ) (mc : ℤ) (hthr : 0 < thr) :
    spikeCondB s thr first mc = true ↔
      ((∃ q, s = some q ∧ thr ≤ q) ∧ (mc : ℚ) ≤ first) := by
  cases s with
  | none => simp [spikeCondB]
  | some q =>
      simp only [spikeCondB, Bool.and_eq_true, bne_iff_ne, ne_eq, decide_eq_true_eq,
        Option.some.injEq]
      constructor
      · rintro ⟨⟨-, hq⟩, hf⟩
        exact ⟨⟨q, rfl, hq⟩, hf⟩
      · rintro ⟨⟨p, rfl, hq⟩, hf⟩
        exact ⟨⟨fun h0 => absurd (h0 ▸ hq) (not_le.mpr hthr), hq⟩, hf⟩

set_option maxHeartbeats 1000000 in
unseal Rat.add Rat.mul Rat.inv Rat.sub in
/-- Concrete hourly outcome on the spec example table. -/
theorem c1_example_eval :
    hInsight (analyze_hourly exHours 50 (5/2)).1 =
      some { first_active_hour := 0, first_hour_clicks := 100,
             rest_median_clicks := some 10, spike_ratio := some 10 } ∧
    (hActions (analyze_hourly exHours 50 (5/2)).1).map List.length = some 2 := by
  refine ⟨by decide, by decide⟩

/-- C1: whenever the hourly table is non-empty with the documented columns
and the threshold is positive, the analyzer emits exactly the two
recommendation strings when the spike ratio is a number at least the
threshold and the first-hour clicks reach the minimum, and an empty action
list otherwise; on hours 0,1,2,3 with clicks 100,10,8,12 at min_clicks=50 and
threshold 2.5 the insight is (0, 100, 10.0, 10.0) and two actions are
emitted. -/
theorem c1_hourly_actions :
    (∀ t mc thr, (0 : ℚ) < thr → tableEmptyB t = false → "segments.hour" ∈ t.cols →
      "metrics.clicks" ∈ t.cols → "metrics.impressions" ∈ t.cols →
      "metrics.conversions" ∈ t.cols → "metrics.cost_micros" ∈ t.cols →
      ∃ acts, hActions (analyze_hourly t mc thr).1 = some acts ∧
        hInsight (analyze_hourly t mc thr).1 = some (insightOf t) ∧
        ((((∃ q, (insightOf t).spike_ratio = some q ∧ thr ≤ q) ∧
            (mc : ℚ) ≤ firstHourClicksF t)) → acts.length = 2) ∧
        ((¬ ((∃ q, (insightOf t).spike_ratio = some q ∧ thr ≤ q) ∧
            (mc : ℚ) ≤ firstHourClicksF t)) → acts = [])) ∧
    hInsight (analyze_hourly exHours 50 (5/2)).1 =
      some { first_active_hour := 0, first_hour_clicks := 100,
             rest_median_clicks := some 10, spike_ratio := some 10 } ∧
    (hActions (analyze_hourly exHours 50 (5/2)).1).map List.length = some 2 := by
  refine ⟨?_, c1_example_eval.1, c1_example_eval.2⟩
  intro t mc thr hthr h1 h2 h3 h4 h5 h6
  rw [analyze_hourly_run t mc thr h1 h2 h3 h4 h5 h6]
  refine ⟨hourlyActionsOf t mc thr, ?_, ?_, ?_, ?_⟩
  · simp only [hActions]
  · simp only [hInsight]
  · rw [insightOf_spike]
    intro hcond
    rw [hourlyActionsOf,
      if_pos ((spikeCondB_iff (spikeOf t) thr (firstHourClicksF t) mc hthr).mpr hcond)]
    simp [hourlyActionStrings]
  · rw [insightOf_spike]
    intro hcond
    rw [hourlyActionsOf,
      if_neg (fun hb =>
        hcond ((spikeCondB_iff (spikeOf t) thr (firstHourClicksF t) mc hthr).mp hb))]

/-- C1 witnessed at the spec example table. -/
theorem c1_witness :
    ((0 : ℚ) < 5/2 ∧ tableEmptyB exHours = false ∧ "segments.hour" ∈ exHours.cols) ∧
    ∃ acts, hActions (analyze_hourly exHours 50 (5/2)).1 = some acts ∧
      hInsight (analyze_hourly exHours 50 (5/2)).1 = some (insightOf exHours) ∧
      ((((∃ q, (insightOf exHours).spike_ratio = some q ∧ (5/2 : ℚ) ≤ q) ∧
          ((50 : ℤ) : ℚ) ≤ firstHourClicksF exHours)) → acts.length = 2) ∧
      ((¬ ((∃ q, (insightOf exHours).spike_ratio = some q ∧ (5/2 : ℚ) ≤ q) ∧
          ((50 : ℤ) : ℚ) ≤ firstHourClicksF exHours)) → acts = []) :=
  ⟨⟨by norm_num, by decide, by decide⟩,
   c1_hourly_actions.1 exHours 50 (5/2) (by norm_num) (by decide) (by decide)
     (by decide) (by decide) (by decide) (by decide)⟩

set_option maxHeartbeats 1000000 in
/-- C2: for every guarded hourly input the reported rest-median is the median
of the summed clicks of all hour groups other than the first active hour
(null when no other groups exist), and the spike ratio is first-hour clicks
divided by that median exactly when the median is a positive number, and
null otherwise. -/
theorem c2_rest_median_and_spike :
    ∀ t mc thr, tableEmptyB t = false → "segments.hour" ∈ t.cols →
      "metrics.clicks" ∈ t.cols → "metrics.impressions" ∈ t.cols →
      "metrics.conversions" ∈ t.cols → "metrics.cost_micros" ∈ t.cols →
      ∃ ins, hInsight (analyze_hourly t mc thr).1 = some ins ∧
        ins.rest_median_clicks = pyMedian (restClicksOf t) ∧
        (restClicksOf t = [] → ins.rest_median_clicks = Option.none) ∧
        (∀ m, ins.rest_median_clicks = some m → 0 < m →
          ins.spike_ratio = some (firstHourClicksF t / m)) ∧
        (∀ m, ins.rest_median_clicks = some m → m ≤ 0 →
          ins.spike_ratio = Option.none) ∧
        (ins.rest_median_clicks = Option.none → ins.spike_ratio = Option.none) := by
  intro t mc thr h1 h2 h3 h4 h5 h6
  rw [analyze_hourly_run t mc thr h1 h2 h3 h4 h5 h6]
  refine ⟨insightOf t, ?_, ?_, ?_, ?_, ?_, ?_⟩
  · simp only [hInsight]
  · rw [insightOf_rest_median, restMedianOf]
  · intro h
    rw [insightOf_rest_median, restMedianOf, h]
    simp [pyMedian]
  · intro m hm h0
    rw [insightOf_rest_median] at hm
    rw [insightOf_spike]
    simp only [spikeOf, hm, if_pos h0]
  · intro m hm hle
    rw [insightOf_rest_median] at hm
    rw [insightOf_spike]
    simp only [spikeOf, hm, if_neg (not_lt.mpr hle)]
  · intro hm
    rw [insightOf_rest_median] at hm
    rw [insightOf_spike]
    simp only [spikeOf, hm]

/-- C2 witnessed at the spec example table. -/
theorem c2_witness :
    tableEmptyB exHours = false ∧ "segments.hour" ∈ exHours.cols ∧
    ∃ ins, hInsight (analyze_hourly exHours 50 (5/2)).1 = some ins ∧
      ins.rest_median_clicks = pyMedian (restClicksOf exHours) ∧
      (restClicksOf exHours = [] → ins.rest_median_clicks = Option.none) ∧
      (∀ m, ins.rest_median_clicks = some m → 0 < m →
        ins.spike_ratio = some (firstHourClicksF exHours / m)) ∧
      (∀ m, ins.rest_median_clicks = some m → m ≤ 0 →
        ins.spike_ratio = Option.none) ∧
      (ins.rest_median_clicks = Option.none → ins.spike_ratio = Option.none) :=
  ⟨by decide, by decide,
   c2_rest_median_and_spike exHours 50 (5/2) (by decide) (by decide) (by decide)
     (by decide) (by decide) (by decide)⟩

theorem getD_all_zero (l : List ℚ) (h : ∀ x ∈ l, x = 0) (i : ℕ) : l.getD i 0 = 0 := by
  induction l generalizing i with
  | nil => simp [List.getD]
  | cons y ys ih =>
      cases i with
      | zero => simpa [List.getD] using h y (List.mem_cons_self y ys)
      | succ j =>
          simp only [List.getD_cons_succ]
          exact ih (fun x hx => h x (List.mem_cons_of_mem y hx)) j

theorem pyMedian_all_zero (l : List ℚ) (h : ∀ x ∈ l, x = 0) (m : ℚ)
    (hm : pyMedian l = some m) : m = 0 := by
  cases l with
  | nil => simp [pyMedian] at hm
  | cons x xs =>
      have hz : ∀ y ∈ sortS (fun a b : ℚ => a ≤ b) (x :: xs), y = 0 := by
        intro y hy
        exact h y ((sortS_perm _ _).mem_iff.mp hy)
      rw [pyMedian] at hm
      simp only [List.isEmpty_cons, if_false, Bool.false_eq_true] at hm
      by_cases hpar : (x :: xs).length % 2 = 1
      · simp only [hpar, if_true, Option.some.injEq] at hm
        rw [← hm, getD_all_zero _ hz]
      · simp only [hpar, if_false, Option.some.injEq] at hm
        rw [← hm, getD_all_zero _ hz, getD_all_zero _ hz]
        norm_num

set_option maxHeartbeats 1000000 in
/-- C10: on a non-empty hourly table with the documented columns in which no
hour group has positive summed clicks (and none has negative clicks), the
analyzer reports first_active_hour = 0 and first_hour_clicks = 0 even when no
group has hour value 0, takes the rest-median over exactly the groups whose
hour differs from 0, reports a null spike ratio, and emits no actions. -/
theorem c10_zero_traffic :
    ∀ t mc thr, tableEmptyB t = false → "segments.hour" ∈ t.cols →
      "metrics.clicks" ∈ t.cols → "metrics.impressions" ∈ t.cols →
      "metrics.conversions" ∈ t.cols → "metrics.cost_micros" ∈ t.cols →
      (∀ g ∈ hourGroupsOf t, 0 ≤ g.clicks) →
      (∀ g ∈ hourGroupsOf t, ¬ 0 < g.clicks) →
      ∃ ins acts, hInsight (analyze_hourly t mc thr).1 = some ins ∧
        hActions (analyze_hourly t mc thr).1 = some acts ∧
        ins.first_active_hour = 0 ∧ ins.first_hour_clicks = 0 ∧
        ins.rest_median_clicks =
          pyMedian (((hourGroupsOf t).filter fun g => decide (¬ g.hour = 0)).map
            HourRow.clicks) ∧
        ins.spike_ratio = Option.none ∧ acts = [] := by
  intro t mc thr h1 h2 h3 h4 h5 h6 hnn hnp
  have hz : ∀ g ∈ hourGroupsOf t, g.clicks = 0 := fun g hg =>
    le_antisymm (not_lt.mp (hnp g hg)) (hnn g hg)
  have hfa : firstActiveOf t = 0 := by
    rw [firstActiveOf]
    have : (hourGroupsOf t).filter (fun g => decide (0 < g.clicks)) = [] := by
      rw [List.filter_eq_nil_iff]
      intro g hg
      simpa using hnp g hg
    rw [this]
  have hfc : firstHourClicksF t = 0 := by
    rw [firstHourClicksF]
    apply List.sum_eq_zero
    intro x hx
    obtain ⟨g, hg, rfl⟩ := List.mem_map.mp hx
    exact hz g (List.mem_filter.mp hg).1
  have hspike : spikeOf t = Option.none := by
    rw [spikeOf]
    rcases hm : restMedianOf t with - | m
    · rfl
    · have hm0 : m = 0 := by
        apply pyMedian_all_zero (restClicksOf t) ?_ m hm
        intro x hx
        obtain ⟨g, hg, rfl⟩ := List.mem_map.mp hx
        exact hz g (List.mem_filter.mp hg).1
      rw [hm0]
      simp
  rw [analyze_hourly_run t mc thr h1 h2 h3 h4 h5 h6]
  refine ⟨insightOf t, hourlyActionsOf t mc thr, ?_, ?_, ?_, ?_, ?_, ?_, ?_⟩
  · simp only [hInsight]
  · simp only [hActions]
  · rw [insightOf_first_active]
    exact hfa
  · rw [insightOf_first_clicks, hfc]
    decide
  · rw [insightOf_rest_median, restMedianOf, restClicksOf, hfa]
    simp only [Int.cast_zero]
  · rw [insightOf_spike]
    exact hspike
  · rw [hourlyActionsOf, hspike]
    simp [spikeCondB]

unseal Rat.add Rat.mul Rat.inv Rat.sub in
/-- C10 witnessed at a zero-traffic table with hour groups 0 and 2. -/
theorem c10_witness :
    (∀ g ∈ hourGroupsOf exZeroHours, 0 ≤ g.clicks) ∧
    (∀ g ∈ hourGroupsOf exZeroHours, ¬ 0 < g.clicks) ∧
    ∃ ins acts, hInsight (analyze_hourly exZeroHours 50 (5/2)).1 = some ins ∧
      hActions (analyze_hourly exZeroHours 50 (5/2)).1 = some acts ∧
      ins.first_active_hour = 0 ∧ ins.first_hour_clicks = 0 ∧
      ins.rest_median_clicks =
        pyMedian (((hourGroupsOf exZeroHours).filter fun g => decide (¬ g.hour = 0)).map
          HourRow.clicks) ∧
      ins.spike_ratio = Option.none ∧ acts = [] :=
  ⟨by decide, by decide,
   c10_zero_traffic exZeroHours 50 (5/2) (by decide) (by decide) (by decide)
     (by decide) (by decide) (by decide) (by decide) (by decide)⟩

/-! ## Claim C7: flattener round trip -/

theorem lookupR_setKey_self (d : Record) (k : String) (v : Val) :
    lookupR (setKey d k v) k = some v := by
  induction d with
  | nil => simp [setKey, lookupR]
  | cons kv rest ih =>
      obtain ⟨k1, v1⟩ := kv
      by_cases h : k1 = k
      · simp [setKey, h, lookupR]
      · simp only [setKey, h, if_false]
        rw [lookupR, if_neg h]
        exact ih

theorem lookupR_setKey_other (d : Record) (k : String) (v : Val) (p : String)
    (hne : p ≠ k) : lookupR (setKey d k v) p = lookupR d p := by
  induction d with
  | nil =>
      simp [setKey, lookupR, Ne.symm hne]
  | cons kv rest ih =>
      obtain ⟨k1, v1⟩ := kv
      by_cases h : k1 = k
      · subst h
        rw [setKey, if_pos rfl, lookupR, lookupR, if_neg (Ne.symm hne), if_neg (Ne.symm hne)]
      · rw [setKey, if_neg h, lookupR, lookupR]
        by_cases h2 : k1 = p
        · rw [if_pos h2, if_pos h2]
        · rw [if_neg h2, if_neg h2, ih]

theorem keysR_setKey (d : Record) (k : String) (v : Val) :
    keysR (setKey d k v) = if k ∈ keysR d then keysR d else keysR d ++ [k] := by
  induction d with
  | nil => simp [setKey, keysR]
  | cons kv rest ih =>
      obtain ⟨k1, v1⟩ := kv
      by_cases h : k1 = k
      · subst h
        simp [setKey, keysR]
      · rw [setKey, if_neg h]
        have hcons : ∀ r : Record, keysR ((k1, v1) :: r) = k1 :: keysR r := by
          intro r; simp [keysR]
        rw [hcons, hcons, ih]
        have hmem2 : (k ∈ k1 :: keysR rest) ↔ (k ∈ keysR rest) := by
          simp [List.mem_cons, Ne.symm h]
        simp only [hmem2]
        by_cases h2 : k ∈ keysR rest
        · rw [if_pos h2, if_pos h2]
        · rw [if_neg h2, if_neg h2]
          simp

theorem nodup_keysR_setKey (d : Record) (k : String) (v : Val)
    (h : (keysR d).Nodup) : (keysR (setKey d k v)).Nodup := by
  rw [keysR_setKey]
  by_cases hm : k ∈ keysR d
  · simp [hm, h]
  · simp only [hm, if_false]
    rw [List.nodup_append]
    exact ⟨h, List.nodup_singleton k, by simpa using hm⟩

theorem mem_keysR_of_lookupR (d : Record) (p : String) (v : Val)
    (h : lookupR d p = some v) : p ∈ keysR d := by
  induction d with
  | nil => simp [lookupR] at h
  | cons kv rest ih =>
      obtain ⟨k1, v1⟩ := kv
      by_cases hk : k1 = p
      · simp [keysR, hk]
      · rw [lookupR, if_neg hk] at h
        have := ih h
        simp only [keysR, List.map_cons, List.mem_cons]
        right
        simpa [keysR] using this

theorem lookupR_eq_none_of_not_mem (d : Record) (p : String)
    (h : p ∉ keysR d) : lookupR d p = Option.none := by
  induction d with
  | nil => rfl
  | cons kv rest ih =>
      obtain ⟨k1, v1⟩ := kv
      simp only [keysR, List.map_cons, List.mem_cons, not_or] at h
      rw [lookupR, if_neg (fun hh => h.1 hh.symm)]
      exact ih (by simpa [keysR] using h.2)

theorem lookupR_dictUpdate_not_mem (u : Record) :
    ∀ (d : Record) (p : String), p ∉ keysR u →
      lookupR (dictUpdate d u) p = lookupR d p := by
  induction u with
  | nil => intro d p _; rfl
  | cons kv rest ih =>
      obtain ⟨k1, v1⟩ := kv
      intro d p h
      simp only [keysR, List.map_cons, List.mem_cons, not_or] at h
      rw [dictUpdate, ih _ p (by simpa [keysR] using h.2),
        lookupR_setKey_other d k1 v1 p h.1]

theorem lookupR_dictUpdate_found (u : Record) :
    ∀ (d : Record) (p : String) (v : Val), (keysR u).Nodup →
      lookupR u p = some v → lookupR (dictUpdate d u) p = some v := by
  induction u with
  | nil => intro d p v _ h; simp [lookupR] at h
  | cons kv rest ih =>
      obtain ⟨k1, v1⟩ := kv
      intro d p v hnod h
      simp only [keysR, List.map_cons, List.nodup_cons] at hnod
      by_cases hk : k1 = p
      · subst hk
        rw [lookupR, if_pos rfl, Option.some.injEq] at h
        rw [dictUpdate,
          lookupR_dictUpdate_not_mem rest _ k1 (by simpa [keysR] using hnod.1),
          lookupR_setKey_self, h]
      · rw [lookupR, if_neg hk] at h
        rw [dictUpdate]
        exact ih _ p v (by simpa [keysR] using hnod.2) h

theorem keysR_dictUpdate_subset (u : Record) :
    ∀ (d : Record) (x : String), x ∈ keysR (dictUpdate d u) →
      x ∈ keysR d ∨ x ∈ keysR u := by
  induction u with
  | nil => intro d x hx; exact Or.inl hx
  | cons kv rest ih =>
      obtain ⟨k1, v1⟩ := kv
      intro d x hx
      rw [dictUpdate] at hx
      rcases ih (setKey d k1 v1) x hx with hx2 | hx2
      · rw [keysR_setKey] at hx2
        by_cases hm : k1 ∈ keysR d
        · rw [if_pos hm] at hx2
          exact Or.inl hx2
        · rw [if_neg hm] at hx2
          rcases List.mem_append.mp hx2 with hx3 | hx3
          · exact Or.inl hx3
          · simp only [List.mem_singleton] at hx3
            right
            simp [keysR, hx3]
      · right
        simp only [keysR, List.map_cons, List.mem_cons]
        right
        simpa [keysR] using hx2

theorem nodup_keysR_dictUpdate (u : Record) :
    ∀ (d : Record), (keysR d).Nodup → (keysR (dictUpdate d u)).Nodup := by
  induction u with
  | nil => intro d h; exact h
  | cons kv rest ih =>
      obtain ⟨k1, v1⟩ := kv
      intro d h
      rw [dictUpdate]
      exact ih _ (nodup_keysR_setKey d k1 v1 h)

theorem string_data_inj (a b : String) (h : a.data = b.data) : a = b := by
  cases a
  cases b
  exact congrArg String.mk h

theorem data_dot : (".").data = ['.'] := rfl

theorem data_append_dot (x y : String) :
    (x ++ "." ++ y).data = x.data ++ '.' :: y.data := by
  rw [String.data_append, String.data_append, data_dot, List.append_assoc,
    List.singleton_append]

theorem dotFree_not_mem (s : String) (h : dotFreeB s = true) : '.' ∉ s.data := by
  intro hm
  rw [dotFreeB, List.all_eq_true] at h
  have := h '.' hm
  simp at this

theorem newKey_data (pk k : String) :
    (newKey pk k).data = if pk = "" then k.data else pk.data ++ '.' :: k.data := by
  rw [newKey]
  by_cases h : pk = ""
  · rw [if_pos h, if_pos h]
  · rw [if_neg h, if_neg h, data_append_dot]

theorem newKey_ne_empty (pk k : String) (hk : k ≠ "") : newKey pk k ≠ "" := by
  intro he
  have hd := congrArg String.data he
  rw [newKey_data] at hd
  by_cases h : pk = ""
  · rw [if_pos h] at hd
    exact hk (string_data_inj k "" hd)
  · rw [if_neg h] at hd
    have : '.' ∈ ("" : String).data := by
      rw [← hd]
      exact List.mem_append.mpr (Or.inr (List.mem_cons_self _ _))
    simp [String.data] at this

theorem newKey_data_of_ne (pk k : String) (h : pk ≠ "") :
    (newKey pk k).data = pk.data ++ '.' :: k.data := by
  rw [newKey_data, if_neg h]

theorem dot_split_eq (u : List Char) :
    ∀ (v a b : List Char), '.' ∉ u → '.' ∉ v →
      u ++ '.' :: a = v ++ '.' :: b → u = v := by
  induction u with
  | nil =>
      intro v a b _ hv h
      cases v with
      | nil => rfl
      | cons d v2 =>
          rw [List.nil_append, List.cons_append] at h
          have hd : '.' = d := (List.cons.injEq _ _ _ _ ▸ h).1
          exact absurd (hd ▸ List.mem_cons_self d v2) hv
  | cons c u2 ih =>
      intro v a b hu hv h
      cases v with
      | nil =>
          rw [List.cons_append, List.nil_append] at h
          have hd : c = '.' := (List.cons.injEq _ _ _ _ ▸ h).1
          exact absurd (hd ▸ List.mem_cons_self c u2) (hd ▸ hu)
      | cons d v2 =>
          rw [List.cons_append, List.cons_append] at h
          have hd := (List.cons.injEq _ _ _ _ ▸ h).1
          have ht := (List.cons.injEq _ _ _ _ ▸ h).2
          have := ih v2 a b (fun hm => hu (List.mem_cons_of_mem c hm))
            (fun hm => hv (List.mem_cons_of_mem d hm)) ht
          rw [hd, this]

/-- Distinct dot-free keys yield distinct dotted paths under a common prefix,
whatever deeper extensions follow. -/
theorem distinct_dotted (P k k2 : String) (s s2 : List Char)
    (hk : dotFreeB k = true) (hk2 : dotFreeB k2 = true) (hne : k ≠ k2) :
    (newKey P k).data ≠ (newKey P k2).data ∧
    (newKey P k).data ≠ (newKey P k2).data ++ '.' :: s2 ∧
    (newKey P k).data ++ '.' :: s ≠ (newKey P k2).data ∧
    (newKey P k).data ++ '.' :: s ≠ (newKey P k2).data ++ '.' :: s2 := by
  have hdk := dotFree_not_mem k hk
  have hdk2 := dotFree_not_mem k2 hk2
  have hdata : k.data ≠ k2.data := fun h => hne (string_data_inj k k2 h)
  by_cases h : P = ""
  · rw [newKey_data, newKey_data, if_pos h, if_pos h]
    refine ⟨hdata, ?_, ?_, ?_⟩
    · intro he
      exact hdk (he ▸ List.mem_append.mpr (Or.inr (List.mem_cons_self _ _)))
    · intro he
      exact hdk2 (he.symm ▸ List.mem_append.mpr (Or.inr (List.mem_cons_self _ _)))
    · intro he
      exact hdata (dot_split_eq k.data k2.data s s2 hdk hdk2 he)
  · rw [newKey_data, newKey_data, if_neg h, if_neg h]
    refine ⟨?_, ?_, ?_, ?_⟩
    · intro he
      have := List.append_cancel_left he
      exact hdata (List.cons.injEq _ _ _ _ ▸ this).2
    · intro he
      rw [List.append_assoc, List.cons_append] at he
      have := (List.cons.injEq _ _ _ _ ▸ List.append_cancel_left he).2
      exact hdk (this ▸ List.mem_append.mpr (Or.inr (List.mem_cons_self _ _)))
    · intro he
      rw [List.append_assoc, List.cons_append] at he
      have := (List.cons.injEq _ _ _ _ ▸ List.append_cancel_left he).2
      exact hdk2 (this.symm ▸ List.mem_append.mpr (Or.inr (List.mem_cons_self _ _)))
    · intro he
      rw [List.append_assoc, List.append_assoc, List.cons_append, List.cons_append] at he
      have := (List.cons.injEq _ _ _ _ ▸ List.append_cancel_left he).2
      exact hdata (dot_split_eq k.data k2.data s s2 hdk hdk2 this)

theorem wfFields_cons (k : String) (m : Msg) (rest : List (String × Msg))
    (h : wfFields ((k, m) :: rest) = true) :
    k ≠ "" ∧ dotFreeB k = true ∧ k ∉ rest.map Prod.fst ∧
      wfMsg m = true ∧ wfFields rest = true := by
  rw [wfFields] at h
  simp only [Bool.and_eq_true, bne_iff_ne, ne_eq, decide_eq_true_eq] at h
  tauto

theorem wfFields_key_props (fields : List (String × Msg))
    (h : wfFields fields = true) :
    ∀ k1 ∈ fields.map Prod.fst, k1 ≠ "" ∧ dotFreeB k1 = true := by
  induction fields with
  | nil => intro k1 hk1; simp at hk1
  | cons km rest ih =>
      obtain ⟨k, m⟩ := km
      obtain ⟨h1, h2, -, -, h5⟩ := wfFields_cons k m rest h
      intro k1 hk1
      rcases List.mem_cons.mp hk1 with rfl | hk1
      · exact ⟨h1, h2⟩
      · exact ih h5 k1 hk1

/-- Unfolding of `wKeys` on a scalar field. -/
theorem wKeys_scalar (k : String) (v : Val) (rest : List (String × Msg)) (P : String) :
    wKeys ((k, Msg.scalar v) :: rest) P = newKey P k :: wKeys rest P := by
  rw [wKeys]
  exact fun sub h => Msg.noConfusion h

/-- Unfolding of `wKeys` on a sequence field. -/
theorem wKeys_arr (k : String) (items : List Msg) (rest : List (String × Msg)) (P : String) :
    wKeys ((k, Msg.arr items) :: rest) P = newKey P k :: wKeys rest P := by
  rw [wKeys]
  exact fun sub h => Msg.noConfusion h

/-- Flattening writes dict-shaped output: its keys are always distinct when
the accumulator's are. -/
theorem flatten_nodup (fields : List (String × Msg)) (P : String) (acc : Record)
    (h : (keysR acc).Nodup) : (keysR (flattenFields fields P acc)).Nodup :=
  match fields with
  | [] => by rw [flattenFields]; exact h
  | (key, Msg.scalar v) :: rest => by
      rw [flattenFields]
      exact flatten_nodup rest P _ (nodup_keysR_setKey acc _ v h)
  | (key, Msg.arr items) :: rest => by
      rw [flattenFields]
      exact flatten_nodup rest P _ (nodup_keysR_setKey acc _ _ h)
  | (key, Msg.dict sub) :: rest => by
      rw [flattenFields]
      exact flatten_nodup rest P _ (nodup_keysR_dictUpdate _ acc h)
termination_by sizeOf fields
decreasing_by all_goals (simp_wf; try omega)

/-- Every key of the flattened output comes from the accumulator or from the
written-key set of the fields. -/
theorem flatten_keys_sub (fields : List (String × Msg)) (P : String) (acc : Record) :
    ∀ x ∈ keysR (flattenFields fields P acc), x ∈ keysR acc ∨ x ∈ wKeys fields P :=
  match fields with
  | [] => by rw [flattenFields, wKeys]; intro x hx; exact Or.inl hx
  | (key, Msg.scalar v) :: rest => by
      rw [flattenFields, wKeys_scalar]
      intro x hx
      rcases flatten_keys_sub rest P _ x hx with hx2 | hx2
      · rw [keysR_setKey] at hx2
        by_cases hm : newKey P key ∈ keysR acc
        · rw [if_pos hm] at hx2
          exact Or.inl hx2
        · rw [if_neg hm] at hx2
          rcases List.mem_append.mp hx2 with h3 | h3
          · exact Or.inl h3
          · simp only [List.mem_singleton] at h3
            exact Or.inr (h3 ▸ List.mem_cons_self _ _)
      · exact Or.inr (List.mem_cons_of_mem _ hx2)
  | (key, Msg.arr items) :: rest => by
      rw [flattenFields, wKeys_arr]
      intro x hx
      rcases flatten_keys_sub rest P _ x hx with hx2 | hx2
      · rw [keysR_setKey] at hx2
        by_cases hm : newKey P key ∈ keysR acc
        · rw [if_pos hm] at hx2
          exact Or.inl hx2
        · rw [if_neg hm] at hx2
          rcases List.mem_append.mp hx2 with h3 | h3
          · exact Or.inl h3
          · simp only [List.mem_singleton] at h3
            exact Or.inr (h3 ▸ List.mem_cons_self _ _)
      · exact Or.inr (List.mem_cons_of_mem _ hx2)
  | (key, Msg.dict sub) :: rest => by
      rw [flattenFields, wKeys]
      intro x hx
      rcases flatten_keys_sub rest P _ x hx with hx2 | hx2
      · rcases keysR_dictUpdate_subset (flattenFields sub (newKey P key) []) acc x hx2 with h3 | h3
        · exact Or.inl h3
        · rcases flatten_keys_sub sub (newKey P key) [] x h3 with h4 | h4
          · simp [keysR] at h4
          · exact Or.inr (List.mem_append.mpr (Or.inl h4))
      · exact Or.inr (List.mem_append.mpr (Or.inr hx2))
termination_by sizeOf fields
decreasing_by all_goals (simp_wf; try omega)

/-- Flattening never changes the binding of a key it does not write. -/
theorem flatten_lookup_stable (fields : List (String × Msg)) (P : String) (acc : Record)
    (p : String) (hp : p ∉ wKeys fields P) :
    lookupR (flattenFields fields P acc) p = lookupR acc p :=
  match fields with
  | [] => by rw [flattenFields]
  | (key, Msg.scalar v) :: rest => by
      rw [wKeys_scalar] at hp
      have h1 : p ≠ newKey P key := fun he => hp (he ▸ List.mem_cons_self _ _)
      have h2 : p ∉ wKeys rest P := fun hm => hp (List.mem_cons_of_mem _ hm)
      rw [flattenFields, flatten_lookup_stable rest P _ p h2,
        lookupR_setKey_other acc _ v p h1]
  | (key, Msg.arr items) :: rest => by
      rw [wKeys_arr] at hp
      have h1 : p ≠ newKey P key := fun he => hp (he ▸ List.mem_cons_self _ _)
      have h2 : p ∉ wKeys rest P := fun hm => hp (List.mem_cons_of_mem _ hm)
      rw [flattenFields, flatten_lookup_stable rest P _ p h2,
        lookupR_setKey_other acc _ _ p h1]
  | (key, Msg.dict sub) :: rest => by
      rw [wKeys] at hp
      have h1 : p ∉ wKeys sub (newKey P key) :=
        fun hm => hp (List.mem_append.mpr (Or.inl hm))
      have h2 : p ∉ wKeys rest P := fun hm => hp (List.mem_append.mpr (Or.inr hm))
      rw [flattenFields, flatten_lookup_stable rest P _ p h2]
      apply lookupR_dictUpdate_not_mem
      intro hm
      rcases flatten_keys_sub sub (newKey P key) [] p hm with h3 | h3
      · simp [keysR] at h3
      · exact h1 h3
termination_by sizeOf fields
decreasing_by all_goals (simp_wf; try omega)

/-- Every written key extends one of the dict's own keys, possibly by a
deeper dotted suffix. -/
theorem wKeys_shape (fields : List (String × Msg)) (P : String)
    (hwf : wfFields fields = true) :
    ∀ q ∈ wKeys fields P, ∃ k1, k1 ∈ fields.map Prod.fst ∧
      (q = newKey P k1 ∨ ∃ cs : List Char, q.data = (newKey P k1).data ++ '.' :: cs) :=
  match fields with
  | [] => by intro q hq; rw [wKeys] at hq; simp at hq
  | (key, Msg.scalar v) :: rest => by
      obtain ⟨-, -, -, -, h5⟩ := wfFields_cons _ _ _ hwf
      intro q hq
      rw [wKeys_scalar] at hq
      rcases List.mem_cons.mp hq with rfl | hq2
      · exact ⟨key, by simp, Or.inl rfl⟩
      · obtain ⟨k1, hk1, hform⟩ := wKeys_shape rest P h5 q hq2
        exact ⟨k1, by simp [hk1], hform⟩
  | (key, Msg.arr items) :: rest => by
      obtain ⟨-, -, -, -, h5⟩ := wfFields_cons _ _ _ hwf
      intro q hq
      rw [wKeys_arr] at hq
      rcases List.mem_cons.mp hq with rfl | hq2
      · exact ⟨key, by simp, Or.inl rfl⟩
      · obtain ⟨k1, hk1, hform⟩ := wKeys_shape rest P h5 q hq2
        exact ⟨k1, by simp [hk1], hform⟩
  | (key, Msg.dict sub) :: rest => by
      obtain ⟨h1, -, -, h4, h5⟩ := wfFields_cons _ _ _ hwf
      rw [wfMsg] at h4
      intro q hq
      rw [wKeys] at hq
      have hnk : newKey P key ≠ "" := newKey_ne_empty P key h1
      rcases List.mem_append.mp hq with hq2 | hq2
      · obtain ⟨k1, hk1, hform⟩ := wKeys_shape sub (newKey P key) h4 q hq2
        refine ⟨key, by simp, Or.inr ?_⟩
        rcases hform with rfl | ⟨cs, hcs⟩
        · exact ⟨k1.data, by rw [newKey_data_of_ne _ _ hnk]⟩
        · exact ⟨k1.data ++ '.' :: cs,
            by rw [hcs, newKey_data_of_ne _ _ hnk, List.append_assoc, List.cons_append]⟩
      · obtain ⟨k1, hk1, hform⟩ := wKeys_shape rest P h5 q hq2
        exact ⟨k1, by simp [hk1], hform⟩
termination_by sizeOf fields
decreasing_by all_goals (simp_wf; try omega)

/-- Every scalar-leaf path extends one of the dict's own keys, possibly by a
deeper dotted suffix. -/
theorem scalarLeaves_shape (fields : List (String × Msg)) (P : String)
    (hwf : wfFields fields = true) :
    ∀ pv ∈ scalarLeaves fields P, ∃ k1, k1 ∈ fields.map Prod.fst ∧
      (pv.1 = newKey P k1 ∨
        ∃ cs : List Char, pv.1.data = (newKey P k1).data ++ '.' :: cs) :=
  match fields with
  | [] => by intro pv hpv; rw [scalarLeaves] at hpv; simp at hpv
  | (key, Msg.scalar v) :: rest => by
      obtain ⟨-, -, -, -, h5⟩ := wfFields_cons _ _ _ hwf
      intro pv hpv
      rw [scalarLeaves] at hpv
      rcases List.mem_cons.mp hpv with rfl | hpv2
      · exact ⟨key, by simp, Or.inl rfl⟩
      · obtain ⟨k1, hk1, hform⟩ := scalarLeaves_shape rest P h5 pv hpv2
        exact ⟨k1, by simp [hk1], hform⟩
  | (key, Msg.arr items) :: rest => by
      obtain ⟨-, -, -, -, h5⟩ := wfFields_cons _ _ _ hwf
      intro pv hpv
      rw [scalarLeaves] at hpv
      obtain ⟨k1, hk1, hform⟩ := scalarLeaves_shape rest P h5 pv hpv
      exact ⟨k1, by simp [hk1], hform⟩
  | (key, Msg.dict sub) :: rest => by
      obtain ⟨h1, -, -, h4, h5⟩ := wfFields_cons _ _ _ hwf
      rw [wfMsg] at h4
      intro pv hpv
      rw [scalarLeaves] at hpv
      have hnk : newKey P key ≠ "" := newKey_ne_empty P key h1
      rcases List.mem_append.mp hpv with hpv2 | hpv2
      · obtain ⟨k1, hk1, hform⟩ := scalarLeaves_shape sub (newKey P key) h4 pv hpv2
        refine ⟨key, by simp, Or.inr ?_⟩
        rcases hform with heq | ⟨cs, hcs⟩
        · exact ⟨k1.data, by rw [heq, newKey_data_of_ne _ _ hnk]⟩
        · exact ⟨k1.data ++ '.' :: cs,
            by rw [hcs, newKey_data_of_ne _ _ hnk, List.append_assoc, List.cons_append]⟩
      · obtain ⟨k1, hk1, hform⟩ := scalarLeaves_shape rest P h5 pv hpv2
        exact ⟨k1, by simp [hk1], hform⟩
termination_by sizeOf fields
decreasing_by all_goals (simp_wf; try omega)

/-- Main round-trip lemma: on a well-formed dict, flattening binds every
scalar leaf's dotted path to that leaf's value, whatever the accumulator. -/
theorem flatten_lookup (fields : List (String × Msg)) (P : String) (acc : Record)
    (hwf : wfFields fields = true) (p : String) (v : Val)
    (hleaf : (p, v) ∈ scalarLeaves fields P) :
    lookupR (flattenFields fields P acc) p = some v :=
  match fields with
  | [] => by rw [scalarLeaves] at hleaf; simp at hleaf
  | (key, Msg.scalar v0) :: rest => by
      obtain ⟨h1, h2, h3, -, h5⟩ := wfFields_cons _ _ _ hwf
      rw [scalarLeaves] at hleaf
      rcases List.mem_cons.mp hleaf with heq | hleaf2
      · have hp : p = newKey P key := congrArg Prod.fst heq
        have hv : v0 = v := (congrArg Prod.snd heq).symm
        have hnotin : p ∉ wKeys rest P := by
          intro hq
          obtain ⟨k1, hk1, hform⟩ := wKeys_shape rest P h5 p hq
          obtain ⟨-, hdf1⟩ := wfFields_key_props rest h5 k1 hk1
          have hkne : key ≠ k1 := fun he => h3 (he ▸ hk1)
          rcases hform with heq2 | ⟨cs, hcs⟩
          · exact (distinct_dotted P key k1 [] [] h2 hdf1 hkne).1
              (congrArg String.data (hp.symm.trans heq2))
          · exact (distinct_dotted P key k1 [] cs h2 hdf1 hkne).2.1
              ((congrArg String.data hp).symm.trans hcs)
        rw [flattenFields, flatten_lookup_stable rest P _ p hnotin, hp,
          lookupR_setKey_self, hv]
      · rw [flattenFields]
        exact flatten_lookup rest P _ h5 p v hleaf2
  | (key, Msg.arr items) :: rest => by
      obtain ⟨-, -, -, -, h5⟩ := wfFields_cons _ _ _ hwf
      rw [scalarLeaves] at hleaf
      rw [flattenFields]
      exact flatten_lookup rest P _ h5 p v hleaf
  | (key, Msg.dict sub) :: rest => by
      obtain ⟨h1, h2, h3, h4, h5⟩ := wfFields_cons _ _ _ hwf
      rw [wfMsg] at h4
      rw [scalarLeaves] at hleaf
      rcases List.mem_append.mp hleaf with hsub | hrest
      · have hu : lookupR (flattenFields sub (newKey P key) []) p = some v :=
          flatten_lookup sub (newKey P key) [] h4 p v hsub
        have hnodup : (keysR (flattenFields sub (newKey P key) [])).Nodup :=
          flatten_nodup sub (newKey P key) [] (by simp [keysR])
        have hnk : newKey P key ≠ "" := newKey_ne_empty P key h1
        have hpext : ∃ cs : List Char, p.data = (newKey P key).data ++ '.' :: cs := by
          obtain ⟨k1, hk1, hform⟩ := scalarLeaves_shape sub (newKey P key) h4 (p, v) hsub
          rcases hform with heq2 | ⟨cs, hcs⟩
          · have heq3 : p = newKey (newKey P key) k1 := heq2
            exact ⟨k1.data, by rw [heq3, newKey_data_of_ne _ _ hnk]⟩
          · have hcs3 : p.data = (newKey (newKey P key) k1).data ++ '.' :: cs := hcs
            exact ⟨k1.data ++ '.' :: cs,
              by rw [hcs3, newKey_data_of_ne _ _ hnk, List.append_assoc, List.cons_append]⟩
        obtain ⟨cs, hcs⟩ := hpext
        have hnotin : p ∉ wKeys rest P := by
          intro hq
          obtain ⟨k1, hk1, hform⟩ := wKeys_shape rest P h5 p hq
          obtain ⟨-, hdf1⟩ := wfFields_key_props rest h5 k1 hk1
          have hkne : key ≠ k1 := fun he => h3 (he ▸ hk1)
          rcases hform with heq2 | ⟨cs2, hcs2⟩
          · exact (distinct_dotted P key k1 cs [] h2 hdf1 hkne).2.2.1
              (hcs.symm.trans (congrArg String.data heq2))
          · exact (distinct_dotted P key k1 cs cs2 h2 hdf1 hkne).2.2.2
              (hcs.symm.trans hcs2)
        rw [flattenFields, flatten_lookup_stable rest P _ p hnotin]
        exact lookupR_dictUpdate_found _ acc p v hnodup hu
      · rw [flattenFields]
        exact flatten_lookup rest P _ h5 p v hrest
termination_by sizeOf fields
decreasing_by all_goals (simp_wf; try omega)

theorem df_from_rows_single (r : List (String × Msg)) :
    df_from_rows [r] = { cols := colsUnion [flatten_message r],
                         rows := [flatten_message r] } := rfl

/-- C7 counterexample: when a key itself contains the path separator, two
distinct scalar leaves can share the dotted path; here "a.b" holds 2 at the
top level while the nested a -> b leaf holds 1, the flattener's dict update
clobbers the first, and the built table does not reproduce the leaf value 2
under its dotted-path key. -/
theorem c7_counterexample :
    ¬ (∀ pv ∈ scalarLeaves exDotRow "",
        tableGet (df_from_rows [exDotRow]) 0 pv.1 = some pv.2) := by
  intro h
  have hmem : ("a.b", Val.num 2) ∈ scalarLeaves exDotRow "" := by
    simp [exDotRow, scalarLeaves, newKey]
  have h1 : tableGet (df_from_rows [exDotRow]) 0 "a.b" = some (Val.num 2) :=
    h ("a.b", Val.num 2) hmem
  have h2 : tableGet (df_from_rows [exDotRow]) 0 "a.b" = some (Val.num 1) := by
    simp [tableGet, df_from_rows, flatten_message, exDotRow, flattenFields, setKey,
      dictUpdate, newKey, colsUnion, cell, lookupR]
  rw [h1] at h2
  simp at h2

/-- C7 amended: flattening the empty row yields the empty mapping, and the
round trip holds for every well-formed nested row - one whose keys, at every
nesting level, are distinct, nonempty and free of the "." separator (as
protobuf field names are): building the table from the flattened row binds
every scalar leaf's dotted path to that leaf's value. Without the proviso
the property fails (see the counterexample). -/
theorem c7_roundtrip :
    flatten_message ([] : List (String × Msg)) = [] ∧
    ∀ row, wfFields row = true → ∀ pv ∈ scalarLeaves row "",
      tableGet (df_from_rows [row]) 0 pv.1 = some pv.2 := by
  constructor
  · rw [flatten_message, flattenFields]
  · intro row hwf pv hpv
    obtain ⟨p, v⟩ := pv
    have hl : lookupR (flatten_message row) p = some v :=
      flatten_lookup row "" [] hwf p v hpv
    have hmem : p ∈ keysR (flatten_message row) := mem_keysR_of_lookupR _ p v hl
    have hcols : p ∈ colsUnion [flatten_message row] := by
      rw [colsUnion]
      simp only [List.foldl_cons, List.foldl_nil, List.nil_append]
      rw [List.mem_filter]
      exact ⟨by simpa [keysR] using hmem, by simp⟩
    show tableGet (df_from_rows [row]) 0 p = some v
    rw [df_from_rows_single, tableGet]
    simp only [List.get?_cons_zero]
    rw [if_pos hcols, cell, hl]
    rfl

/-- C7 amended, witnessed on a well-formed nested row with two dict levels
and a sequence field. -/
theorem c7_witness :
    wfFields exNestedRow = true ∧
    ∀ pv ∈ scalarLeaves exNestedRow "",
      tableGet (df_from_rows [exNestedRow]) 0 pv.1 = some pv.2 :=
  ⟨by decide, c7_roundtrip.2 exNestedRow (by decide)⟩

end GoogleAds
